import Mathlib

/-!
# resgate: the HTTP bridge of `server/apiHandler.go`

A shallow embedding of the request handler, the ephemeral session
(`temporaryConn`), the error classifier (`httpError`) and the flat JSON
encoder (`encoderJSONFlat`), followed by theorems about them.

Conventions of the embedding

* Go strings and byte slices are Lean `String`s; `len` is the UTF-8 byte size.
* A Go `error` that may be `nil` is an `Option GoError`; `nil` is `none`.
* Functions of packages that are not part of the sources (`encoding/json`,
  `httpapi`, `codec`, the resolver behind `wsConn`) are parameters, bundled
  in the structures `Json`, `Httpapi`, `wsConn` and `Service`.
* Mutation of the response writer and of the encoder is explicit state
  passing.  Calls that reach the session layer or the resolver are recorded
  in a chronological trace of `Event`s.
* The resolver invokes each callback it is given exactly once; an operation
  of `wsConn` is therefore a function returning the arguments of that one
  invocation, and the closures of the source become continuations.
* Recursion that the source does not bound (`httpError` on a failing
  serializer, `encodeSubscription` on a graph) carries a fuel argument;
  running out of it yields `Run.fuel`.
* The definitions of namespace `Spec` follow the words of the specification;
  the theorems on rendering compare them with the functions of the source.
-/

namespace Resgate

/-! ## Outcomes -/

/-- Outcome of running a Go function of the model: a normal return, a runtime
panic (nil dereference), or exhaustion of the recursion budget of the model. -/
inductive Run (α : Type) where
  | ret (a : α)
  | panic
  | fuel
deriving DecidableEq, Repr

/-! ## Package `reserr` -/

namespace reserr

/-- Modelled from the spec: the domain error `reserr.Error`, an object
`{code, message}`; package `reserr` is not part of the sources. -/
structure Error where
  Code : String
  Message : String
deriving DecidableEq, Repr

/-- Modelled from the spec: the constants of package `reserr` used by the
handler.  Their string values are not in the sources, so they are parameters:
the seven domain codes, the messages of the three predefined errors, and the
message given to an error that is wrapped as an internal error. -/
structure Consts where
  CodeBadRequest : String
  CodeNotFound : String
  CodeTimeout : String
  CodeAccessDenied : String
  CodeMethodNotAllowed : String
  CodeInternalError : String
  CodeServiceUnavailable : String
  MsgNotFound : String
  MsgMethodNotAllowed : String
  MsgServiceUnavailable : String
  internalMessage : String → String

/-- The seven domain codes, in the order of the taxonomy. -/
def Consts.codes (K : Consts) : List String :=
  [K.CodeBadRequest, K.CodeNotFound, K.CodeTimeout, K.CodeAccessDenied,
   K.CodeMethodNotAllowed, K.CodeInternalError, K.CodeServiceUnavailable]

/-- Modelled from the spec: `reserr.ErrNotFound`, the canonical NotFound error. -/
def ErrNotFound (K : Consts) : Error := ⟨K.CodeNotFound, K.MsgNotFound⟩

/-- Modelled from the spec: `reserr.ErrMethodNotAllowed`. -/
def ErrMethodNotAllowed (K : Consts) : Error := ⟨K.CodeMethodNotAllowed, K.MsgMethodNotAllowed⟩

/-- Modelled from the spec: `reserr.ErrServiceUnavailable`. -/
def ErrServiceUnavailable (K : Consts) : Error :=
  ⟨K.CodeServiceUnavailable, K.MsgServiceUnavailable⟩

end reserr

/-- A non-nil Go `error` value: a `*reserr.Error`, or any other error, kept by
the text of its `Error()` method. -/
inductive GoError where
  | res (e : reserr.Error)
  | other (msg : String)
deriving DecidableEq, Repr

/-- Modelled from the spec: `reserr.RESError`, which returns a domain error as
it is and classifies any other error as an InternalError. -/
def reserr.RESError (K : reserr.Consts) : GoError → reserr.Error
  | .res e => e
  | .other msg => ⟨K.CodeInternalError, K.internalMessage msg⟩

/-! ## Package `encoding/json` -/

/-- A non-nil `interface{}` result handed to the result callback: a
`json.RawMessage` (the empty string is the nil slice), or some other Go value
identified by a tag. -/
inductive Data where
  | rawMessage (b : String)
  | other (id : Nat)
deriving DecidableEq, Repr

/-- The functions of `encoding/json` the handler calls.  A failure carries the
text of the returned error, which is never a `*reserr.Error`. -/
structure Json where
  /-- The result of `json.Marshal` on a Go string. -/
  MarshalString : String → Except String String
  /-- The result of `json.Marshal` on a `*reserr.Error`. -/
  MarshalError : reserr.Error → Except String String
  /-- The result of `json.Marshal` on an `interface{}` result. -/
  Marshal : Data → Except String String
  /-- The result of `json.Unmarshal(b, &params)` with `params` a `json.RawMessage`. -/
  Unmarshal : String → Except String String

/-! ## Package `net/http`: the response writer -/

/-- State of an `http.ResponseWriter`: the header map, whether the status line
has been written, the status and the headers sent with it, and the body. -/
structure ResponseWriter where
  header : List (String × String)
  wroteHeader : Bool
  status : Nat
  sentHeader : List (String × String)
  body : String
deriving DecidableEq, Repr

namespace ResponseWriter

/-- A response writer on which nothing has been set or written. -/
def fresh : ResponseWriter := ⟨[], false, 0, [], ""⟩

/-- The call `w.Header().Set(key, value)`. -/
def Set (w : ResponseWriter) (key value : String) : ResponseWriter :=
  { w with header := (key, value) :: w.header.filter (fun kv => kv.1 ≠ key) }

/-- The call `w.WriteHeader(code)`: the first call fixes the status and the
headers that are sent; a later call is ignored. -/
def WriteHeader (w : ResponseWriter) (code : Nat) : ResponseWriter :=
  if w.wroteHeader then w
  else { w with wroteHeader := true, status := code, sentHeader := w.header }

/-- Statuses whose response carries a body (`bodyAllowedForStatus`). -/
def bodyAllowed (status : Nat) : Bool :=
  !((100 ≤ status && status ≤ 199) || status == 204 || status == 304)

/-- The call `w.Write(b)`: writes status 200 first when no status has been
written, then appends to the body when the status allows one. -/
def Write (w : ResponseWriter) (b : String) : ResponseWriter :=
  let w1 := if w.wroteHeader then w else w.WriteHeader 200
  if bodyAllowed w1.status then { w1 with body := w1.body ++ b } else w1

end ResponseWriter

def StatusOK : Nat := 200
def StatusCreated : Nat := 201
def StatusNoContent : Nat := 204
def StatusBadRequest : Nat := 400
def StatusUnauthorized : Nat := 401
def StatusNotFound : Nat := 404
def StatusMethodNotAllowed : Nat := 405
def StatusInternalServerError : Nat := 500
def StatusServiceUnavailable : Nat := 503

/-! ## `httpError` -/

/-- The `switch rerr.Code` of `httpError`: the status for a domain code. -/
def httpErrorCode (K : reserr.Consts) (code : String) : Nat :=
  if code = K.CodeNotFound then StatusNotFound
  else if code = K.CodeTimeout then StatusNotFound
  else if code = K.CodeAccessDenied then StatusUnauthorized
  else if code = K.CodeMethodNotAllowed then StatusMethodNotAllowed
  else if code = K.CodeInternalError then StatusInternalServerError
  else if code = K.CodeServiceUnavailable then StatusServiceUnavailable
  else StatusBadRequest

/-- The function `httpError(w, err)`.  When serializing the error fails it
calls itself with the serialization error; each call consumes one unit of fuel. -/
def httpError (J : Json) (K : reserr.Consts) : Nat → ResponseWriter → GoError → Run ResponseWriter
  | 0, _, _ => .fuel
  | n + 1, w, err =>
    let rerr := reserr.RESError K err
    match J.MarshalError rerr with
    | .error msg => httpError J K n w (.other msg)
    | .ok out =>
      let code := httpErrorCode K rerr.Code
      .ret (((w.Set "Content-Type" "application/json; charset=utf-8").WriteHeader code).Write out)

/-! ## Packages `codec` and `rescache`: values and subscriptions -/

namespace codec

/-- Modelled from the spec: the tag of a `codec.Value`; `ValueTypeResource`
marks a resource reference, every other tag a value copied through as it is. -/
inductive ValueType where
  | ValueTypeNone
  | ValueTypePrimitive
  | ValueTypeResource
deriving DecidableEq, Repr

/-- Modelled from the spec: a `codec.Value`, an already serialized fragment
(`RawMessage`) or a reference to the resource named `RID`; the field `Type` of
the source is `Type_` here. -/
structure Value where
  RawMessage : String
  Type_ : ValueType
  RID : String
deriving DecidableEq, Repr

end codec

namespace rescache

/-- Modelled from the spec: the shape of a resource, `rescache.TypeCollection`,
`rescache.TypeModel`, or anything else. -/
inductive ResourceType where
  | TypeCollection
  | TypeModel
  | TypeOther
deriving DecidableEq, Repr

end rescache

/-- Modelled from the spec: the state of a `*Subscription` as the encoder reads
it: its RID, its error state (`s.Error()`), its shape (`s.ResourceType()`),
the values of a collection in order (`s.CollectionValues()`), and the entries
of a model (`s.ModelValues()`) in the order in which the `range` statement of
this rendering pass visits the map. -/
structure Subscription where
  rid : String
  Error : Option GoError
  ResourceType : rescache.ResourceType
  CollectionValues : List codec.Value
  ModelValues : List (String × codec.Value)
deriving DecidableEq, Repr

/-- Modelled from the spec: the accessor `s.RID()`. -/
def Subscription.RID (s : Subscription) : String := s.rid

/-- Modelled from the spec: the helper `containsString(list, s)`. -/
def containsString (list : List String) (s : String) : Bool := decide (s ∈ list)

/-! ## The flat JSON encoder -/

/-- The struct `encoderJSONFlat`: the output buffer and the path of RIDs. -/
structure encoderJSONFlat where
  b : String
  path : List String
deriving DecidableEq, Repr

namespace encoderJSONFlat

/-- The call `e.b.Write(p)`. -/
def Write (e : encoderJSONFlat) (p : String) : encoderJSONFlat := { e with b := e.b ++ p }

/-- The call `e.b.WriteByte(c)`. -/
def WriteByte (e : encoderJSONFlat) (c : Char) : encoderJSONFlat :=
  { e with b := e.b ++ String.singleton c }

/-- The `for i, v := range vals` loop of the collection case, from index `i`
on; `enc` is the recursive call `e.encodeSubscription` and `Ref` is `s.Ref`,
whose nil result makes the recursive call panic. -/
def rangeCollection (enc : encoderJSONFlat → Subscription → Run (encoderJSONFlat × Option String))
    (Ref : String → Option Subscription) :
    Nat → List codec.Value → encoderJSONFlat → Run (encoderJSONFlat × Option String)
  | _, [], e => .ret (e, none)
  | i, v :: vals, e =>
    let e1 := if i > 0 then e.WriteByte ',' else e
    if v.Type_ = codec.ValueType.ValueTypeResource then
      match Ref v.RID with
      | none => .panic
      | some sc =>
        match enc e1 sc with
        | .ret (e2, none) => rangeCollection enc Ref (i + 1) vals e2
        | r => r
    else rangeCollection enc Ref (i + 1) vals (e1.Write v.RawMessage)

/-- The `for k, v := range vals` loop of the model case, with the current
value of the flag `first`. -/
def rangeModel (J : Json)
    (enc : encoderJSONFlat → Subscription → Run (encoderJSONFlat × Option String))
    (Ref : String → Option Subscription) :
    Bool → List (String × codec.Value) → encoderJSONFlat → Run (encoderJSONFlat × Option String)
  | _, [], e => .ret (e, none)
  | first, (k, v) :: vals, e =>
    let e1 := if !first then e.WriteByte ',' else e
    match J.MarshalString k with
    | .error msg => .ret (e1, some msg)
    | .ok dta =>
      let e2 := (e1.Write dta).WriteByte ':'
      if v.Type_ = codec.ValueType.ValueTypeResource then
        match Ref v.RID with
        | none => .panic
        | some sc =>
          match enc e2 sc with
          | .ret (e3, none) => rangeModel J enc Ref false vals e3
          | r => r
      else rangeModel J enc Ref false vals (e2.Write v.RawMessage)

/-- The method `encodeSubscription`.  `Ref s rid` is the lookup `s.Ref(rid)`
supplied by the resolver.  The result is the encoder after the call and the
returned error; each nested call consumes one unit of fuel. -/
def encodeSubscription (J : Json) (K : reserr.Consts)
    (Ref : Subscription → String → Option Subscription) :
    Nat → encoderJSONFlat → Subscription → Run (encoderJSONFlat × Option String)
  | 0, _, _ => .fuel
  | n + 1, e, s =>
    let rid := s.RID
    -- Check for cyclic reference
    if containsString e.path rid then
      let e1 := e.Write "\x7b\"rid\":"
      match J.MarshalString rid with
      | .error msg => .ret (e1, some msg)
      | .ok dta => .ret ((e1.Write dta).WriteByte '}', none)
    else
      -- Check for errors
      match s.Error with
      | some err =>
        match J.MarshalError (reserr.RESError K err) with
        | .error msg => .ret (e, some msg)
        | .ok dta => .ret (e.Write dta, none)
      | none =>
        -- Add itself to path
        let e1 : encoderJSONFlat := { e with path := e.path ++ [s.rid] }
        match s.ResourceType with
        | .TypeCollection =>
          match rangeCollection (fun e2 sc => encodeSubscription J K Ref n e2 sc) (Ref s) 0
              s.CollectionValues (e1.WriteByte '[') with
          | .ret (e2, none) => .ret (e2.WriteByte ']', none)
          | r => r
        | .TypeModel =>
          match rangeModel J (fun e2 sc => encodeSubscription J K Ref n e2 sc) (Ref s) true
              s.ModelValues (e1.WriteByte '\x7b') with
          | .ret (e2, none) => .ret (e2.WriteByte '}', none)
          | r => r
        | .TypeOther => .ret (e1, none)

/-- The method `Encode`: the raw message (the buffer) and the error returned.
The `println` of the buffer, a debugging aid, is left out. -/
def Encode (J : Json) (K : reserr.Consts) (Ref : Subscription → String → Option Subscription)
    (fuel : Nat) (e : encoderJSONFlat) (s : Subscription) : Run (String × Option String) :=
  match encodeSubscription J K Ref fuel e s with
  | .ret (_, some err) => .ret ("", some err)
  | .ret (e1, none) => .ret (e1.b, none)
  | .panic => .panic
  | .fuel => .fuel

end encoderJSONFlat

/-! ## Resource graphs -/

/-- The RIDs a subscription refers to: the values of type resource of its
collection or of its model, according to its shape. -/
def Subscription.refs (s : Subscription) : List String :=
  match s.ResourceType with
  | .TypeCollection =>
    (s.CollectionValues.filter (fun v => v.Type_ = codec.ValueType.ValueTypeResource)).map
      (fun v => v.RID)
  | .TypeModel =>
    (s.ModelValues.filter (fun kv => kv.2.Type_ = codec.ValueType.ValueTypeResource)).map
      (fun kv => kv.2.RID)
  | .TypeOther => []

/-- A finite resource graph: a list of subscriptions in which every reference
of a member resolves, through the lookup, to a member. -/
@[reducible] def Closed (Ref : Subscription → String → Option Subscription)
    (subs : List Subscription) : Prop :=
  ∀ s ∈ subs, ∀ rid ∈ s.refs, ∃ sc ∈ subs, Ref s rid = some sc

/-- The number of RIDs of the graph that are not on the path: the measure
that decreases along nested calls of `encodeSubscription`. -/
def remaining (subs : List Subscription) (path : List String) : Nat :=
  ((subs.map (fun s => s.rid)).toFinset \ path.toFinset).card

/-- The path `p1` is the path `p` followed by new RIDs that are pairwise
distinct, not on `p`, and each the RID of a subscription satisfying `G`. -/
def Extends (G : Subscription → Prop) (p p1 : List String) : Prop :=
  ∃ ext : List String, p1 = p ++ ext ∧ ext.Nodup ∧ (∀ r ∈ ext, r ∉ p) ∧
    ∀ r ∈ ext, ∃ s : Subscription, G s ∧ s.rid = r

/-! ## The rendering of a collection and of a model, after the specification -/

namespace Spec

/-- A result of the encoder with the bytes `b` put before its buffer. -/
def shift (b : String) :
    Run (encoderJSONFlat × Option String) → Run (encoderJSONFlat × Option String)
  | .ret (e1, o) => .ret (⟨b ++ e1.b, e1.path⟩, o)
  | .panic => .panic
  | .fuel => .fuel

/-- Renderings separated by single commas. -/
def commaSep : List String → String
  | [] => ""
  | [d] => d
  | d :: ds => d ++ "," ++ commaSep ds

/-- Renderings each preceded by a comma: the tail of a comma separated list. -/
def commaEach : List String → String
  | [] => ""
  | d :: ds => "," ++ d ++ commaEach ds

/-- The recursive flattening of the subscription `sc` from the path `path`:
the bytes `encodeSubscription` writes for it into an empty buffer and the
path it leaves, when it returns without error. -/
def flatten (J : Json) (K : reserr.Consts) (Ref : Subscription → String → Option Subscription)
    (n : Nat) (path : List String) (sc : Subscription) : Option (String × List String) :=
  match encoderJSONFlat.encodeSubscription J K Ref n ⟨"", path⟩ sc with
  | .ret (e1, none) => some (e1.b, e1.path)
  | _ => none

/-- The renderings of the values `v1..vn` of a collection, in order: the raw
bytes of a value that is no reference, copied unchanged, and the flattening
of the subscription looked up by its RID for a reference, each from the path
left by the values before it; with the path left by the last. -/
def renderings (flat : List String → Subscription → Option (String × List String))
    (Ref : String → Option Subscription) :
    List codec.Value → List String → Option (List String × List String)
  | [], path => some ([], path)
  | v :: vals, path =>
    if v.Type_ = codec.ValueType.ValueTypeResource then
      match Ref v.RID with
      | none => none
      | some sc =>
        match flat path sc with
        | none => none
        | some (d, path1) =>
          match renderings flat Ref vals path1 with
          | none => none
          | some (ds, path2) => some (d :: ds, path2)
    else
      match renderings flat Ref vals path with
      | none => none
      | some (ds, path2) => some (v.RawMessage :: ds, path2)

/-- The renderings of the fields of a model, in the order given: the JSON
string of the key, a colon, and the rendering of the value as in a
collection. -/
def fields (J : Json) (flat : List String → Subscription → Option (String × List String))
    (Ref : String → Option Subscription) :
    List (String × codec.Value) → List String → Option (List String × List String)
  | [], path => some ([], path)
  | (k, v) :: vals, path =>
    match J.MarshalString k with
    | .error _ => none
    | .ok dta =>
      if v.Type_ = codec.ValueType.ValueTypeResource then
        match Ref v.RID with
        | none => none
        | some sc =>
          match flat path sc with
          | none => none
          | some (d, path1) =>
            match fields J flat Ref vals path1 with
            | none => none
            | some (ds, path2) => some ((dta ++ ":" ++ d) :: ds, path2)
      else
        match fields J flat Ref vals path with
        | none => none
        | some (ds, path2) => some ((dta ++ ":" ++ v.RawMessage) :: ds, path2)

end Spec

/-! ## Requests, sessions and the resolver -/

/-- The fields of `url.URL` the handler reads. -/
structure URL where
  Path : String
  RawPath : String
  RawQuery : String
deriving DecidableEq, Repr

/-- The fields of `http.Request` the handler reads; `Body` is the outcome of
`ioutil.ReadAll(r.Body)`, the bytes read or the text of the read error. -/
structure Request where
  Method : String
  URL : URL
  Body : Except String String

/-- Calls that reach the session layer or the resolver, in the order made. -/
inductive Event where
  | newWSConn
  | Enqueue
  | AuthResource (rid action : String)
  | GetSubscription (rid : String)
  | GetHTTPResource (rid apiPath : String)
  | NewHTTPResource (rid apiPath : String) (params : Option String)
  | CallResource (rid action : String) (params : Option String)
  | closeDone
  | dispose
deriving DecidableEq, Repr

/-- The observable state of one request: the response and the trace of calls. -/
structure World where
  w : ResponseWriter
  trace : List Event
deriving DecidableEq, Repr

/-- The state in which a request arrives: nothing written, nothing called. -/
def World.start : World := ⟨ResponseWriter.fresh, []⟩

/-- Record a call. -/
def World.log (σ : World) (ev : Event) : World := { σ with trace := σ.trace ++ [ev] }

/-- Run a function on the response writer. -/
def World.onWriter (σ : World) (f : ResponseWriter → Run ResponseWriter) : Run World :=
  match f σ.w with
  | .ret w1 => .ret { σ with w := w1 }
  | .panic => .panic
  | .fuel => .fuel

/-- The type of the result callback `func(interface{}, error)`. -/
abbrev Callback := Option Data → Option GoError → World → Run World

/-- Modelled from the spec: the resolver behind a `*wsConn`.  Each field gives
the arguments with which the operation invokes its callback; `Ref` is the
lookup `s.Ref(rid)` of the subscriptions the connection holds. -/
structure wsConn where
  subscription : String → Option Subscription × Option GoError
  httpResource : String → String → Option Data × Option GoError
  newResource : String → String → Option String → String × Option GoError
  callResult : String → String → Option String → Option Data × Option GoError
  authResult : String → String → Option String → Option Data × Option GoError
  Ref : Subscription → String → Option Subscription

namespace wsConn

/-- The call `c.GetSubscription(rid, cb)`. -/
def GetSubscription (c : wsConn) (rid : String)
    (cb : Option Subscription → Option GoError → World → Run World) (σ : World) : Run World :=
  cb (c.subscription rid).1 (c.subscription rid).2 (σ.log (.GetSubscription rid))

/-- The call `c.GetHTTPResource(rid, apiPath, cb)`. -/
def GetHTTPResource (c : wsConn) (rid apiPath : String) (cb : Callback) (σ : World) : Run World :=
  cb (c.httpResource rid apiPath).1 (c.httpResource rid apiPath).2
    (σ.log (.GetHTTPResource rid apiPath))

/-- The call `c.NewHTTPResource(rid, apiPath, params, cb)`. -/
def NewHTTPResource (c : wsConn) (rid apiPath : String) (params : Option String)
    (cb : String → Option GoError → World → Run World) (σ : World) : Run World :=
  cb (c.newResource rid apiPath params).1 (c.newResource rid apiPath params).2
    (σ.log (.NewHTTPResource rid apiPath params))

/-- The call `c.CallResource(rid, action, params, cb)`. -/
def CallResource (c : wsConn) (rid action : String) (params : Option String) (cb : Callback)
    (σ : World) : Run World :=
  cb (c.callResult rid action params).1 (c.callResult rid action params).2
    (σ.log (.CallResource rid action params))

/-- The call `c.AuthResource(rid, action, params, cb)`. -/
def AuthResource (c : wsConn) (rid action : String) (params : Option String) (cb : Callback)
    (σ : World) : Run World :=
  cb (c.authResult rid action params).1 (c.authResult rid action params).2
    (σ.log (.AuthResource rid action))

end wsConn

/-- The fields of the service configuration the handler reads. -/
structure Config where
  APIPath : String
  APIEncoding : String
  HeaderAuth : Option String
  headerAuthRID : String
  headerAuthAction : String

/-- Modelled from the spec: the service as the handler uses it: its
configuration and `newWSConn`, which yields no connection (nil) when no
session can be created. -/
structure Service where
  cfg : Config
  newWSConn : Request → Option wsConn

/-- Modelled from the spec: the path parsers of package `httpapi` and the RID
grammar of package `codec`, which are not part of the sources. -/
structure Httpapi where
  PathToRID : String → String → String → String
  PathToRIDAction : String → String → String → String × String
  IsValidRID : String → Bool → Bool

/-! ## Strings -/

/-- The test `unicode.IsSpace` of the Go library. -/
def isSpace (c : Char) : Bool :=
  c == ' ' || (9 ≤ c.toNat && c.toNat ≤ 13) || c.toNat == 0x85 || c.toNat == 0xA0 ||
  c.toNat == 0x1680 || (0x2000 ≤ c.toNat && c.toNat ≤ 0x200A) || c.toNat == 0x2028 ||
  c.toNat == 0x2029 || c.toNat == 0x202F || c.toNat == 0x205F || c.toNat == 0x3000

/-- The function `strings.TrimSpace`. -/
def TrimSpace (s : String) : String :=
  ⟨((s.data.dropWhile isSpace).reverse.dropWhile isSpace).reverse⟩

/-- The Go expression `len(s)`. -/
def len (s : String) : Nat := s.utf8ByteSize

/-- The Go test `path[len(path)-1] == '/'` on a non-empty string: the last
byte of a UTF-8 string is `/` exactly when its last character is. -/
def lastByteIsSlash (path : String) : Bool := path.data.getLast? == some '/'

/-! ## The handler -/

/-- The value of `nullBytes`. -/
def nullBytes : String := "null"

/-- The function `init`: the value stored in `notFoundBytes`, or a panic. -/
def init (J : Json) (K : reserr.Consts) : Run String :=
  match J.MarshalError (reserr.ErrNotFound K) with
  | .error _ => .panic
  | .ok out => .ret out

/-- The function `notFoundHandler`, with the value of the variable `notFoundBytes`. -/
def notFoundHandler (notFoundBytes : String) (w : ResponseWriter) : ResponseWriter :=
  ((w.Set "Content-Type" "application/json; charset=utf-8").WriteHeader StatusNotFound).Write
    notFoundBytes

/-- The closure `rs` of `temporaryConn`: the response for `(data, err)`, then
the deferred calls `close(done)` and `c.dispose()`, in the order they run. -/
def temporaryConn.rs (J : Json) (K : reserr.Consts) (fuel : Nat) : Callback :=
  fun data err σ =>
    let written : Run ResponseWriter :=
      match err with
      | some e => httpError J K fuel σ.w e
      | none =>
        match data with
        | some d =>
          match J.Marshal d with
          | .error msg => httpError J K fuel σ.w (.other msg)
          | .ok out =>
            if out ≠ nullBytes then
              .ret ((σ.w.Set "Content-Type" "application/json; charset=utf-8").Write out)
            else .ret (σ.w.WriteHeader StatusNoContent)
        | none => .ret (σ.w.WriteHeader StatusNoContent)
    match written with
    | .ret w1 => .ret ⟨w1, σ.trace ++ [.closeDone, .dispose]⟩
    | .panic => .panic
    | .fuel => .fuel

/-- The method `temporaryConn(w, r, cb)`. -/
def temporaryConn (J : Json) (K : reserr.Consts) (S : Service) (fuel : Nat) (r : Request)
    (cb : wsConn → Callback → World → Run World) (σ : World) : Run World :=
  let σ1 := σ.log .newWSConn
  match S.newWSConn r with
  | none => σ1.onWriter (fun w => httpError J K fuel w (.res (reserr.ErrServiceUnavailable K)))
  | some c =>
    let rs := temporaryConn.rs J K fuel
    let σ2 := σ1.log .Enqueue
    if S.cfg.HeaderAuth.isSome then
      c.AuthResource S.cfg.headerAuthRID S.cfg.headerAuthAction none
        (fun _result _err σ3 => cb c rs σ3) σ2
    else cb c rs σ2

/-- The function `encodeJSONFlat(cb)`; a nil subscription without an error
makes `Encode` panic. -/
def encodeJSONFlat (J : Json) (K : reserr.Consts)
    (Ref : Subscription → String → Option Subscription) (fuel : Nat) (cb : Callback) :
    Option Subscription → Option GoError → World → Run World :=
  fun s err σ =>
    match err with
    | some e => cb none (some e) σ
    | none =>
      match s with
      | none => .panic
      | some s1 =>
        match encoderJSONFlat.Encode J K Ref fuel ⟨"", []⟩ s1 with
        | .ret (b, some msg) => cb (some (.rawMessage b)) (some (.other msg)) σ
        | .ret (b, none) => cb (some (.rawMessage b)) none σ
        | .panic => .panic
        | .fuel => .fuel

/-- The operation of a POST request, the closure given to `temporaryConn`. -/
def apiHandler.post (S : Service) (rid action : String) (params : Option String) :
    wsConn → Callback → World → Run World :=
  fun c cb =>
    if action = "new" then
      c.NewHTTPResource rid S.cfg.APIPath params (fun href err σ =>
        let σ1 : World :=
          match err with
          | none => { σ with w := (σ.w.Set "Location" href).WriteHeader StatusCreated }
          | some _ => σ
        cb none err σ1)
    else c.CallResource rid action params cb

/-- The operation of a GET request, the closure given to `temporaryConn`. -/
def apiHandler.get (J : Json) (K : reserr.Consts) (S : Service) (fuel : Nat) (rid : String) :
    wsConn → Callback → World → Run World :=
  fun c cb =>
    if S.cfg.APIEncoding = "jsonFlat" then
      c.GetSubscription rid (encodeJSONFlat J K c.Ref fuel cb)
    else c.GetHTTPResource rid S.cfg.APIPath cb

/-- The method `apiHandler(w, r)`, with the value of the variable `notFoundBytes`. -/
def apiHandler (J : Json) (K : reserr.Consts) (H : Httpapi) (S : Service)
    (notFoundBytes : String) (fuel : Nat) (r : Request) (σ : World) : Run World :=
  let path := if r.URL.RawPath = "" then r.URL.Path else r.URL.RawPath
  let apiPath := S.cfg.APIPath
  if r.Method = "GET" then
    if len path > len apiPath && lastByteIsSlash path then
      .ret { σ with w := notFoundHandler notFoundBytes σ.w }
    else
      let rid := H.PathToRID path r.URL.RawQuery apiPath
      if !H.IsValidRID rid true then
        .ret { σ with w := notFoundHandler notFoundBytes σ.w }
      else temporaryConn J K S fuel r (apiHandler.get J K S fuel rid) σ
  else if r.Method = "POST" then
    if len path > len apiPath && lastByteIsSlash path then
      .ret { σ with w := notFoundHandler notFoundBytes σ.w }
    else
      let ra := H.PathToRIDAction path r.URL.RawQuery apiPath
      let rid := ra.1
      let action := ra.2
      if !H.IsValidRID rid true || !H.IsValidRID action false then
        .ret { σ with w := notFoundHandler notFoundBytes σ.w }
      else
        match r.Body with
        | .error msg =>
          σ.onWriter (fun w => httpError J K fuel w
            (.res ⟨K.CodeBadRequest, "Error reading request body: " ++ msg⟩))
        | .ok b =>
          if TrimSpace b ≠ "" then
            match J.Unmarshal b with
            | .error msg =>
              σ.onWriter (fun w => httpError J K fuel w
                (.res ⟨K.CodeBadRequest, "Error decoding request body: " ++ msg⟩))
            | .ok params =>
              temporaryConn J K S fuel r (apiHandler.post S rid action (some params)) σ
          else temporaryConn J K S fuel r (apiHandler.post S rid action none) σ
  else σ.onWriter (fun w => httpError J K fuel w (.res (reserr.ErrMethodNotAllowed K)))

/-- The path the handler works on: `r.URL.RawPath`, or `r.URL.Path` when the
raw path is empty (the first statement of `apiHandler`). -/
def requestPath (r : Request) : String :=
  if r.URL.RawPath = "" then r.URL.Path else r.URL.RawPath

/-- The calls `temporaryConn` records between the creation of the session and
the operation of the caller: the auth call when header authentication is
configured, nothing otherwise. -/
def authEvents (S : Service) : List Event :=
  if S.cfg.HeaderAuth.isSome then [.AuthResource S.cfg.headerAuthRID S.cfg.headerAuthAction]
  else []

/-- The JSON content type the handler declares. -/
def contentTypeJSON : String × String := ("Content-Type", "application/json; charset=utf-8")

/-- The connection `c` with another outcome of the auth call. -/
def wsConn.withAuthResult (c : wsConn)
    (a : String → String → Option String → Option Data × Option GoError) : wsConn :=
  { c with authResult := a }

/-- The service whose connections report the outcome `a` of the auth call. -/
def Service.withAuthResult (S : Service)
    (a : String → String → Option String → Option Data × Option GoError) : Service :=
  { S with newWSConn := fun r => (S.newWSConn r).map (fun c => c.withAuthResult a) }

/-! ## The order of the calls of the result callback -/

/-- A call the result callback makes: on the response writer
(`w.Header().Set`, `w.WriteHeader`, `w.Write`), on the channel
(`close(done)`) or on the session (`c.dispose()`). -/
inductive Effect where
  | Set (key value : String)
  | WriteHeader (code : Nat)
  | Write (b : String)
  | closeDone
  | dispose
deriving DecidableEq, Repr

/-- Whether the call is one on the response writer. -/
def Effect.isWrite : Effect → Bool
  | .Set _ _ => true
  | .WriteHeader _ => true
  | .Write _ => true
  | .closeDone => false
  | .dispose => false

/-- The state of the request after the call. -/
def Effect.apply (σ : World) : Effect → World
  | .Set key value => { σ with w := σ.w.Set key value }
  | .WriteHeader code => { σ with w := σ.w.WriteHeader code }
  | .Write b => { σ with w := σ.w.Write b }
  | .closeDone => σ.log .closeDone
  | .dispose => σ.log .dispose

/-- The state of the request after a sequence of calls, made in order. -/
def replay (σ : World) : Run (List Effect) → Run World
  | .ret effs => .ret (effs.foldl Effect.apply σ)
  | .panic => .panic
  | .fuel => .fuel

/-- The calls `httpError(w, err)` makes on the response writer, in the order
of its statements (lines 162-189). -/
def httpErrorEffects (J : Json) (K : reserr.Consts) : Nat → GoError → Run (List Effect)
  | 0, _ => .fuel
  | n + 1, err =>
    let rerr := reserr.RESError K err
    match J.MarshalError rerr with
    | .error msg => httpErrorEffects J K n (.other msg)
    | .ok out =>
      .ret [.Set "Content-Type" "application/json; charset=utf-8",
        .WriteHeader (httpErrorCode K rerr.Code), .Write out]

/-- The calls the closure `rs` of `temporaryConn` makes for `(data, err)`, in
the order in which they run: the calls of its body (lines 127-147), then, on
return, the deferred calls, the one deferred last first: `close(done)`
(line 125), then `c.dispose()` (line 124). -/
def temporaryConn.rsEffects (J : Json) (K : reserr.Consts) (fuel : Nat)
    (data : Option Data) (err : Option GoError) : Run (List Effect) :=
  let body : Run (List Effect) :=
    match err with
    | some e => httpErrorEffects J K fuel e
    | none =>
      match data with
      | some d =>
        match J.Marshal d with
        | .error msg => httpErrorEffects J K fuel (.other msg)
        | .ok out =>
          if out ≠ nullBytes then
            .ret [.Set "Content-Type" "application/json; charset=utf-8", .Write out]
          else .ret [.WriteHeader StatusNoContent]
      | none => .ret [.WriteHeader StatusNoContent]
  match body with
  | .ret effs => .ret (effs ++ [.closeDone, .dispose])
  | .panic => .panic
  | .fuel => .fuel

/-! ## An instance of the parameters, for the examples -/

namespace Example

/-- A hexadecimal digit, in lower case. -/
def hexDigit (n : Nat) : Char := if n < 10 then Char.ofNat (48 + n) else Char.ofNat (87 + n)

/-- The escape of one character in a JSON string, as `encoding/json` writes it. -/
def escape (c : Char) : String :=
  if c.toNat = 34 then "\\\"" else if c.toNat = 92 then "\\\\"
  else if c.toNat = 10 then "\\n" else if c.toNat = 13 then "\\r"
  else if c.toNat = 9 then "\\t"
  else if c.toNat < 32 ∨ c.toNat = 60 ∨ c.toNat = 62 ∨ c.toNat = 38 then
    "\\u00" ++ ⟨[hexDigit (c.toNat / 16), hexDigit (c.toNat % 16)]⟩
  else if c.toNat = 0x2028 then "\\u2028" else if c.toNat = 0x2029 then "\\u2029"
  else String.singleton c

/-- The JSON string for a Go string. -/
def quote (s : String) : String := "\"" ++ String.join (s.data.map escape) ++ "\""

/-- An instance of `encoding/json`: strings are quoted, an error is the object
of its code and message, a raw message is copied (nil gives `null`) and is
accepted as a request body when it starts an object, an array or a string or
is `null`; any other value is taken to be of an unsupported type. -/
def json : Json where
  MarshalString s := .ok (quote s)
  MarshalError e :=
    .ok ("\x7b\"code\":" ++ quote e.Code ++ ",\"message\":" ++ quote e.Message ++ "\x7d")
  Marshal d :=
    match d with
    | .rawMessage b => .ok (if b = "" then "null" else b)
    | .other _ => .error "json: unsupported type"
  Unmarshal b :=
    match (TrimSpace b).data.head? with
    | some c =>
      if c.toNat = 123 ∨ c.toNat = 91 ∨ c.toNat = 34 ∨ TrimSpace b = "null" then .ok (TrimSpace b)
      else .error "invalid character"
    | none => .error "unexpected end of JSON input"

/-- The constants of package `reserr`, with the values of the RES protocol. -/
def consts : reserr.Consts where
  CodeBadRequest := "system.badRequest"
  CodeNotFound := "system.notFound"
  CodeTimeout := "system.timeout"
  CodeAccessDenied := "system.accessDenied"
  CodeMethodNotAllowed := "system.methodNotAllowed"
  CodeInternalError := "system.internalError"
  CodeServiceUnavailable := "system.serviceUnavailable"
  MsgNotFound := "Not found"
  MsgMethodNotAllowed := "Method not allowed"
  MsgServiceUnavailable := "Service unavailable"
  internalMessage msg := "Internal error: " ++ msg

/-- Replace each `/` of a path by `.`. -/
def dots (cs : List Char) : List Char := cs.map (fun c => if c = '/' then '.' else c)

/-- An instance of the path parsers: the part of the path after the API path
with `/` replaced by `.`; the action is the last segment; a RID is valid when
it is not empty and has no blank. -/
def httpapi : Httpapi where
  PathToRID path _ apiPath := ⟨dots (path.data.drop apiPath.length)⟩
  PathToRIDAction path _ apiPath :=
    let segs := (path.data.drop apiPath.length).reverse
    (⟨dots (segs.dropWhile (fun c => c ≠ '/')).tail.reverse⟩,
     ⟨(segs.takeWhile (fun c => c ≠ '/')).reverse⟩)
  IsValidRID rid _ := rid ≠ "" && !rid.data.contains ' '

/-- A leaf value holding a serialized fragment. -/
def prim (raw : String) : codec.Value := ⟨raw, .ValueTypePrimitive, ""⟩

/-- A reference to the resource `rid`. -/
def ref (rid : String) : codec.Value := ⟨"", .ValueTypeResource, rid⟩

/-- A model subscription without error. -/
def model (rid : String) (vals : List (String × codec.Value)) : Subscription :=
  ⟨rid, none, .TypeModel, [], vals⟩

/-- A collection subscription without error. -/
def collection (rid : String) (vals : List codec.Value) : Subscription :=
  ⟨rid, none, .TypeCollection, vals, []⟩

/-- A lookup over a finite list of subscriptions, by RID. -/
def lookup (subs : List Subscription) : Subscription → String → Option Subscription :=
  fun _ rid => subs.find? (fun s => s.rid = rid)

/-- The diamond: A references B and C, and B and C each reference D. -/
def diamond : List Subscription :=
  [model "A" [("b", ref "B"), ("c", ref "C")],
   model "B" [("d", ref "D")],
   model "C" [("d", ref "D")],
   model "D" [("x", prim "1")]]

/-- The cycle: A references B, and the only reference of B points back to A. -/
def cycle : List Subscription :=
  [model "A" [("b", ref "B")], model "B" [("a", ref "A")]]

/-- A connection whose resolver creates the resource `/api/todos.7`, answers
a call without a result, and serves the diamond of subscriptions. -/
def conn : wsConn where
  subscription rid := ((lookup diamond (model "" []) rid), none)
  httpResource _ _ := (some (.rawMessage "\x7b\"name\":\"Alice\"\x7d"), none)
  newResource _ _ _ := ("/api/todos.7", none)
  callResult _ _ _ := (none, none)
  authResult _ _ _ := (none, some (.res ⟨"system.accessDenied", "Access denied"⟩))
  Ref := lookup diamond

/-- A connection whose resolver refuses to create a resource. -/
def connDenied : wsConn :=
  { conn with newResource := fun _ _ _ => ("", some (.res ⟨"system.accessDenied", "Access denied"⟩)) }

/-- A service at the API path `/api/` without header authentication. -/
def service (c : wsConn) : Service := ⟨⟨"/api/", "json", none, "", ""⟩, fun _ => some c⟩

/-- A request with a method, a path and a body that is read without error. -/
def request (method path body : String) : Request := ⟨method, ⟨path, "", ""⟩, .ok body⟩

/-- The bytes of the NotFound error, as `init` stores them. -/
def notFoundBytes : String := "\x7b\"code\":\"system.notFound\",\"message\":\"Not found\"\x7d"

/-- A node in error state (NotFound), declared as a model with one field. -/
def broken : Subscription :=
  ⟨"X", some (.res ⟨"system.notFound", "Not found"⟩), .TypeModel, [], [("y", prim "2")]⟩

/-- A parent collection P over the node X in error state and a model D, in
two variants: the first slot refers to X, or it refers to D; the second slot
refers to D in both. -/
def siblings (first : String) : List Subscription :=
  [collection "P" [ref first, ref "D"], broken, model "D" [("x", prim "1")]]

/-- A serializer that rejects the NotFound error only: it stands for
`encoding/json` on an error object that carries data it cannot serialize, and
it accepts every other object of a code and a message. -/
def picky : Json :=
  { json with
    MarshalError := fun e =>
      if e.Code = "system.notFound" then .error "json: unsupported value"
      else json.MarshalError e }

/-- A service at the API path `/api/` with header authentication. -/
def serviceAuth (c : wsConn) : Service :=
  ⟨⟨"/api/", "json", some "auth.login", "auth", "login"⟩, fun _ => some c⟩

/-- A service that cannot create a session. -/
def serviceFull : Service := ⟨⟨"/api/", "json", none, "", ""⟩, fun _ => none⟩

/-- The cycle with further fields: A holds a name, the reference to B and a
number; B holds a number, the reference back to A, its only reference, and a
flag. -/
def cycleFields : List Subscription :=
  [model "A" [("name", prim "\"a\""), ("b", ref "B"), ("n", prim "1")],
   model "B" [("x", prim "2"), ("a", ref "A"), ("ok", prim "true")]]

end Example

/-! ## Theorems: the response writer and the error classifier -/

section Classifier

variable (J : Json) (K : reserr.Consts)

theorem bodyAllowed_httpErrorCode (code : String) :
    ResponseWriter.bodyAllowed (httpErrorCode K code) = true := by
  unfold httpErrorCode
  repeat (split; · decide)
  decide

/-- The response `httpError` writes on a writer without a status, given the
serialized error: the JSON content type, the status, the bytes. -/
theorem httpError_ok (n : Nat) (w : ResponseWriter) (err : GoError) (out : String)
    (hw : w.wroteHeader = false)
    (hout : J.MarshalError (reserr.RESError K err) = .ok out) :
    httpError J K (n + 1) w err = .ret
      { header := ("Content-Type", "application/json; charset=utf-8") ::
          w.header.filter (fun kv => kv.1 ≠ "Content-Type")
        wroteHeader := true
        status := httpErrorCode K (reserr.RESError K err).Code
        sentHeader := ("Content-Type", "application/json; charset=utf-8") ::
          w.header.filter (fun kv => kv.1 ≠ "Content-Type")
        body := w.body ++ out } := by
  simp [httpError, hout, ResponseWriter.Set, ResponseWriter.WriteHeader, ResponseWriter.Write,
    hw, bodyAllowed_httpErrorCode]

/-- The code BadRequest, distinct from the six codes of the switch, falls to
its default case. -/
theorem httpErrorCode_badRequest (hK : K.codes.Nodup) :
    httpErrorCode K K.CodeBadRequest = 400 := by
  simp only [reserr.Consts.codes, List.nodup_cons, List.mem_cons, List.mem_singleton,
    not_or, List.not_mem_nil, not_false_eq_true, List.nodup_nil, and_true] at hK
  obtain ⟨⟨b1, b2, b3, b4, b5, b6⟩, _⟩ := hK
  simp [httpErrorCode, StatusBadRequest, b1, b2, b3, b4, b5, b6]

/-- C1: for every domain error `e` whose serialization is `out`, `httpError`
writes, on a writer without a status, the status `httpErrorCode e.Code`, which
depends on the code only, with the JSON content type and with body exactly
`out`, not wrapped; and, the seven codes being distinct, the table is 404 for
NotFound and Timeout, 401 for AccessDenied, 405 for MethodNotAllowed, 500 for
InternalError, 503 for ServiceUnavailable, and 400 for BadRequest and for
every string that is none of the six. -/
theorem httpError_status_table (hK : K.codes.Nodup) (n : Nat) (w : ResponseWriter)
    (e : reserr.Error) (out : String) (hw : w.wroteHeader = false)
    (hout : J.MarshalError e = .ok out) :
    httpError J K (n + 1) w (.res e) = .ret
        { header := ("Content-Type", "application/json; charset=utf-8") ::
            w.header.filter (fun kv => kv.1 ≠ "Content-Type")
          wroteHeader := true
          status := httpErrorCode K e.Code
          sentHeader := ("Content-Type", "application/json; charset=utf-8") ::
            w.header.filter (fun kv => kv.1 ≠ "Content-Type")
          body := w.body ++ out } ∧
      httpErrorCode K K.CodeNotFound = 404 ∧
      httpErrorCode K K.CodeTimeout = 404 ∧
      httpErrorCode K K.CodeAccessDenied = 401 ∧
      httpErrorCode K K.CodeMethodNotAllowed = 405 ∧
      httpErrorCode K K.CodeInternalError = 500 ∧
      httpErrorCode K K.CodeServiceUnavailable = 503 ∧
      httpErrorCode K K.CodeBadRequest = 400 ∧
      ∀ code : String, code ∉ [K.CodeNotFound, K.CodeTimeout, K.CodeAccessDenied,
        K.CodeMethodNotAllowed, K.CodeInternalError, K.CodeServiceUnavailable] →
        httpErrorCode K code = 400 := by
  refine ⟨httpError_ok J K n w (.res e) out hw hout, ?_⟩
  simp only [reserr.Consts.codes, List.nodup_cons, List.mem_cons, List.mem_singleton,
    not_or, List.not_mem_nil, not_false_eq_true, List.nodup_nil, and_true] at hK
  obtain ⟨⟨b1, b2, b3, b4, b5, b6⟩, ⟨n2, n3, n4, n5, n6⟩, ⟨t3, t4, t5, t6⟩, ⟨a4, a5, a6⟩,
    ⟨m5, m6⟩, i6⟩ := hK
  refine ⟨?_, ?_, ?_, ?_, ?_, ?_, ?_, ?_⟩
  · simp [httpErrorCode, StatusNotFound]
  · simp [httpErrorCode, StatusNotFound]
  · simp [httpErrorCode, StatusUnauthorized, Ne.symm n3, Ne.symm t3]
  · simp [httpErrorCode, StatusMethodNotAllowed, Ne.symm n4, Ne.symm t4, Ne.symm a4]
  · simp [httpErrorCode, StatusInternalServerError, Ne.symm n5, Ne.symm t5, Ne.symm a5,
      Ne.symm m5]
  · simp [httpErrorCode, StatusServiceUnavailable, Ne.symm n6, Ne.symm t6, Ne.symm a6,
      Ne.symm m6, Ne.symm i6]
  · simp [httpErrorCode, StatusBadRequest, b1, b2, b3, b4, b5, b6]
  · intro code hc
    simp only [List.mem_cons, List.mem_singleton, not_or, List.not_mem_nil,
      not_false_eq_true, and_true] at hc
    obtain ⟨c1, c2, c3, c4, c5, c6⟩ := hc
    simp [httpErrorCode, StatusBadRequest, c1, c2, c3, c4, c5, c6]

/-- The instance of C1 for a Timeout error on a fresh writer: status 404. -/
theorem httpError_status_table_witness :
    Example.consts.codes.Nodup ∧
      httpError Example.json Example.consts 1 ResponseWriter.fresh
          (.res ⟨"system.timeout", "Request timeout"⟩) = .ret
        { header := [("Content-Type", "application/json; charset=utf-8")]
          wroteHeader := true
          status := 404
          sentHeader := [("Content-Type", "application/json; charset=utf-8")]
          body := "\x7b\"code\":\"system.timeout\",\"message\":\"Request timeout\"\x7d" } :=
  ⟨by decide,
    (httpError_status_table Example.json Example.consts (by decide) 0 ResponseWriter.fresh
      ⟨"system.timeout", "Request timeout"⟩
      "\x7b\"code\":\"system.timeout\",\"message\":\"Request timeout\"\x7d" rfl rfl).1⟩

end Classifier

/-! ## Theorems: the flat encoder on a node of the path -/

section Encoder

open encoderJSONFlat

variable (J : Json) (K : reserr.Consts)

/-- A subscription whose RID is on the path is written as the stub, with one
unit of fuel, whatever the lookup and the content of the subscription. -/
theorem encodeSubscription_stub (Ref : Subscription → String → Option Subscription) (n : Nat)
    (e : encoderJSONFlat) (s : Subscription) (dta : String) (hpath : s.RID ∈ e.path)
    (hm : J.MarshalString s.RID = .ok dta) :
    encodeSubscription J K Ref (n + 1) e s =
      .ret (⟨e.b ++ "\x7b\"rid\":" ++ dta ++ "\x7d", e.path⟩, none) := by
  simp [encodeSubscription, containsString, hpath, hm, encoderJSONFlat.Write,
    encoderJSONFlat.WriteByte]
  rfl

/-- A subscription in error state that is not on the path is written as its
serialized error, with one unit of fuel; the path is left as it was. -/
theorem encodeSubscription_error (Ref : Subscription → String → Option Subscription) (n : Nat)
    (e : encoderJSONFlat) (s : Subscription) (err : GoError) (dta : String)
    (hpath : s.RID ∉ e.path) (herr : s.Error = some err)
    (hm : J.MarshalError (reserr.RESError K err) = .ok dta) :
    encodeSubscription J K Ref (n + 1) e s = .ret (⟨e.b ++ dta, e.path⟩, none) := by
  simp [encodeSubscription, containsString, hpath, hm, herr, encoderJSONFlat.Write]

/-- C2: on the diamond (A refers to B and C, each of which refers to D, no
cycle) `Encode` of A renders D in full inside B, but inside C it renders D as
the stub of its RID: the RID of D, pushed while B was rendered, is still on
the path, because no RID is ever removed from it. -/
theorem encode_diamond_stub :
    Encode Example.json Example.consts (Example.lookup Example.diamond) 4 ⟨"", []⟩
        (Example.model "A" [("b", Example.ref "B"), ("c", Example.ref "C")]) =
        .ret ("\x7b\"b\":\x7b\"d\":\x7b\"x\":1\x7d\x7d,\"c\":\x7b\"d\":\x7b\"rid\":\"D\"\x7d\x7d\x7d",
          none) ∧
      encodeSubscription Example.json Example.consts (Example.lookup Example.diamond) 4
        ⟨"", []⟩ (Example.model "A" [("b", Example.ref "B"), ("c", Example.ref "C")]) =
        .ret (⟨"\x7b\"b\":\x7b\"d\":\x7b\"x\":1\x7d\x7d,\"c\":\x7b\"d\":\x7b\"rid\":\"D\"\x7d\x7d\x7d",
          ["A", "B", "D", "C"]⟩, none) := by
  constructor <;> rfl

end Encoder

/-! ## Theorems: the session and the handler -/

section Handler

variable (J : Json) (K : reserr.Consts) (H : Httpapi) (S : Service)

/-- With a session, `temporaryConn` records the creation of the session, the
enqueued work and the auth call, if any, and then runs the operation of the
caller with the result callback `rs`. -/
theorem temporaryConn_some (fuel : Nat) (r : Request)
    (cb : wsConn → Callback → World → Run World) (σ : World) (c : wsConn)
    (hc : S.newWSConn r = some c) :
    temporaryConn J K S fuel r cb σ =
      cb c (temporaryConn.rs J K fuel)
        ⟨σ.w, σ.trace ++ ([.newWSConn, .Enqueue] ++ authEvents S)⟩ := by
  unfold temporaryConn authEvents
  simp only [hc, World.log, wsConn.AuthResource]
  split <;> simp

/-- A POST request that passes the checks on the path and carries a readable
body reaches the parsing of the body. -/
theorem apiHandler_post (notFoundBytes : String) (fuel : Nat) (r : Request) (σ : World)
    (b : String) (hm : r.Method = "POST")
    (hslash : ¬ (len (requestPath r) > len S.cfg.APIPath ∧ lastByteIsSlash (requestPath r) = true))
    (hrid : H.IsValidRID (H.PathToRIDAction (requestPath r) r.URL.RawQuery S.cfg.APIPath).1 true
      = true)
    (haction : H.IsValidRID
      (H.PathToRIDAction (requestPath r) r.URL.RawQuery S.cfg.APIPath).2 false = true)
    (hb : r.Body = .ok b) :
    apiHandler J K H S notFoundBytes fuel r σ =
      if TrimSpace b ≠ "" then
        match J.Unmarshal b with
        | .error msg =>
          σ.onWriter (fun w => httpError J K fuel w
            (.res ⟨K.CodeBadRequest, "Error decoding request body: " ++ msg⟩))
        | .ok params =>
          temporaryConn J K S fuel r (apiHandler.post S
            (H.PathToRIDAction (requestPath r) r.URL.RawQuery S.cfg.APIPath).1
            (H.PathToRIDAction (requestPath r) r.URL.RawQuery S.cfg.APIPath).2 (some params)) σ
      else
        temporaryConn J K S fuel r (apiHandler.post S
          (H.PathToRIDAction (requestPath r) r.URL.RawQuery S.cfg.APIPath).1
          (H.PathToRIDAction (requestPath r) r.URL.RawQuery S.cfg.APIPath).2 none) σ := by
  have hget : ¬ r.Method = "GET" := by rw [hm]; decide
  unfold requestPath at hslash hrid haction
  unfold apiHandler
  rw [if_neg hget, if_pos hm]
  simp only [Bool.and_eq_true, decide_eq_true_eq]
  rw [if_neg hslash]
  simp only [hrid, haction, hb, Bool.not_true, Bool.or_self, Bool.false_eq_true, if_false]
  rfl

/-- Only blanks in a body: `strings.TrimSpace` leaves nothing. -/
theorem TrimSpace_of_blank (b : String) (hb : ∀ c ∈ b.data, isSpace c = true) :
    TrimSpace b = "" := by
  have h : b.data.dropWhile isSpace = [] := List.dropWhile_eq_nil_iff.mpr hb
  simp [TrimSpace, h]

/-- Whatever `httpError` returns is the response for some serialized domain
error: the JSON content type, the status of its code, its bytes. -/
theorem httpError_ret (n : Nat) (w w1 : ResponseWriter) (err : GoError)
    (h : httpError J K n w err = .ret w1) :
    ∃ (e : reserr.Error) (out : String), J.MarshalError e = .ok out ∧
      w1 = ((w.Set "Content-Type" "application/json; charset=utf-8").WriteHeader
        (httpErrorCode K e.Code)).Write out := by
  induction n generalizing err with
  | zero => simp [httpError] at h
  | succ n ih =>
    unfold httpError at h
    cases hm : J.MarshalError (reserr.RESError K err) with
    | error msg =>
      simp only [hm] at h
      exact ih _ h
    | ok out =>
      simp only [hm] at h
      exact ⟨_, out, hm, by injection h with h; exact h.symm⟩

/-- C7: for a POST request that passes the checks on the path, the RID and the
action, and whose body is not blank and is rejected by `json.Unmarshal` with
error text `msg`, the handler answers with status 400 and the serialized
BadRequest error "Error decoding request body: msg" as body, and the trace of
calls is left as it was: `temporaryConn` is not run, no session is created
and nothing is dispatched to the resolver. -/
theorem apiHandler_invalid_json (hK : K.codes.Nodup) (notFoundBytes : String) (n : Nat)
    (r : Request) (σ : World) (b msg out : String) (hm : r.Method = "POST")
    (hslash : ¬ (len (requestPath r) > len S.cfg.APIPath ∧ lastByteIsSlash (requestPath r) = true))
    (hrid : H.IsValidRID (H.PathToRIDAction (requestPath r) r.URL.RawQuery S.cfg.APIPath).1 true
      = true)
    (haction : H.IsValidRID
      (H.PathToRIDAction (requestPath r) r.URL.RawQuery S.cfg.APIPath).2 false = true)
    (hb : r.Body = .ok b) (hne : TrimSpace b ≠ "") (hjson : J.Unmarshal b = .error msg)
    (hw : σ.w.wroteHeader = false)
    (hout : J.MarshalError ⟨K.CodeBadRequest, "Error decoding request body: " ++ msg⟩ = .ok out) :
    apiHandler J K H S notFoundBytes (n + 1) r σ = .ret
      { w :=
          { header := contentTypeJSON :: σ.w.header.filter (fun kv => kv.1 ≠ "Content-Type")
            wroteHeader := true
            status := 400
            sentHeader := contentTypeJSON :: σ.w.header.filter (fun kv => kv.1 ≠ "Content-Type")
            body := σ.w.body ++ out }
        trace := σ.trace } := by
  have h400 : httpErrorCode K K.CodeBadRequest = 400 := httpErrorCode_badRequest K hK
  rw [apiHandler_post J K H S notFoundBytes (n + 1) r σ b hm hslash hrid haction hb, if_pos hne]
  simp only [hjson, World.onWriter]
  rw [httpError_ok J K n σ.w _ out hw (by simpa [reserr.RESError] using hout)]
  simp [reserr.RESError, h400, contentTypeJSON]

/-- C9: for a GET request whose path is the API path followed by a non-empty
rest and ends with a slash, the handler answers with status 404, the JSON
content type and the bytes of `notFoundBytes`, the NotFound error serialized
by `init`, whatever the path parser and the RID grammar say, and the trace
of calls is left as it was: no session is opened. -/
theorem apiHandler_get_trailing_slash (notFoundBytes : String) (fuel : Nat) (r : Request)
    (σ : World) (rest : String) (hinit : init J K = .ret notFoundBytes)
    (hm : r.Method = "GET") (hunder : requestPath r = S.cfg.APIPath ++ rest)
    (hrest : rest ≠ "") (hslash : lastByteIsSlash (requestPath r) = true)
    (hw : σ.w.wroteHeader = false) :
    J.MarshalError (reserr.ErrNotFound K) = .ok notFoundBytes ∧
      apiHandler J K H S notFoundBytes fuel r σ = .ret
        { w :=
            { header := contentTypeJSON :: σ.w.header.filter (fun kv => kv.1 ≠ "Content-Type")
              wroteHeader := true
              status := 404
              sentHeader :=
                contentTypeJSON :: σ.w.header.filter (fun kv => kv.1 ≠ "Content-Type")
              body := σ.w.body ++ notFoundBytes }
          trace := σ.trace } := by
  constructor
  · unfold init at hinit
    cases hmar : J.MarshalError (reserr.ErrNotFound K) with
    | error msg => simp [hmar] at hinit
    | ok out => simp only [hmar] at hinit; injection hinit with h; rw [h]
  · have hlen : len (requestPath r) > len S.cfg.APIPath := by
      have hd : rest.data ≠ [] := fun h => hrest (by cases rest; simp_all)
      have hpos : 0 < String.utf8Len rest.data :=
        Nat.pos_of_ne_zero (fun h => hd (String.utf8Len_eq_zero.mp h))
      rw [hunder]
      show (S.cfg.APIPath ++ rest).utf8ByteSize > S.cfg.APIPath.utf8ByteSize
      cases hA : S.cfg.APIPath with
      | mk as =>
        cases hR : rest with
        | mk rs =>
          rw [hR] at hpos
          change 0 < String.utf8Len rs at hpos
          show String.utf8Len (as ++ rs) > String.utf8Len as
          rw [String.utf8Len_append]
          omega
    unfold requestPath at hlen hslash
    unfold apiHandler
    rw [if_pos hm]
    simp only [Bool.and_eq_true, decide_eq_true_eq]
    rw [if_pos ⟨hlen, hslash⟩]
    simp [notFoundHandler, ResponseWriter.Set, ResponseWriter.WriteHeader, ResponseWriter.Write,
      hw, StatusNotFound, ResponseWriter.bodyAllowed, contentTypeJSON]

/-- C10: for a POST request that passes the checks on the path, the RID and the
action, and whose body holds nothing but white space, the handler raises no
parse error: it runs `temporaryConn` with the operation for absent (nil)
parameters, and, with a session, the call dispatched to the resolver is
`NewHTTPResource` for the action `new` and `CallResource` otherwise, in both
cases with nil parameters, the result callback receiving its result. -/
theorem apiHandler_blank_body (notFoundBytes : String) (fuel : Nat) (r : Request) (σ : World)
    (b rid action : String) (hm : r.Method = "POST")
    (hslash : ¬ (len (requestPath r) > len S.cfg.APIPath ∧ lastByteIsSlash (requestPath r) = true))
    (hpa : H.PathToRIDAction (requestPath r) r.URL.RawQuery S.cfg.APIPath = (rid, action))
    (hrid : H.IsValidRID rid true = true) (haction : H.IsValidRID action false = true)
    (hb : r.Body = .ok b) (hblank : ∀ c ∈ b.data, isSpace c = true) :
    apiHandler J K H S notFoundBytes fuel r σ =
        temporaryConn J K S fuel r (apiHandler.post S rid action none) σ ∧
      ∀ c : wsConn, S.newWSConn r = some c →
        apiHandler J K H S notFoundBytes fuel r σ =
          if action = "new" then
            temporaryConn.rs J K fuel none (c.newResource rid S.cfg.APIPath none).2
              { w :=
                  match (c.newResource rid S.cfg.APIPath none).2 with
                  | none =>
                    (σ.w.Set "Location" (c.newResource rid S.cfg.APIPath none).1).WriteHeader
                      StatusCreated
                  | some _ => σ.w
                trace := σ.trace ++ ([.newWSConn, .Enqueue] ++ authEvents S ++
                  [.NewHTTPResource rid S.cfg.APIPath none]) }
          else
            temporaryConn.rs J K fuel (c.callResult rid action none).1
              (c.callResult rid action none).2
              { w := σ.w
                trace := σ.trace ++ ([.newWSConn, .Enqueue] ++ authEvents S ++
                  [.CallResource rid action none]) } := by
  have htrim : ¬ TrimSpace b ≠ "" := not_not.mpr (TrimSpace_of_blank b hblank)
  have hpost := apiHandler_post J K H S notFoundBytes fuel r σ b hm hslash
    (by rw [hpa]; exact hrid) (by rw [hpa]; exact haction) hb
  rw [if_neg htrim, hpa] at hpost
  refine ⟨hpost, fun c hc => ?_⟩
  rw [hpost, temporaryConn_some J K S fuel r _ σ c hc]
  unfold apiHandler.post
  by_cases hnew : action = "new"
  · simp only [hnew, if_true, wsConn.NewHTTPResource, World.log, List.append_assoc]
    cases (c.newResource rid S.cfg.APIPath none).2 <;> rfl
  · simp only [hnew, if_false, wsConn.CallResource, World.log, List.append_assoc]

/-- C8: for a POST request with the action `new` that passes the checks, with
parameters `params` read from its body and with a session, on a fresh
response: when the resolver reports success with the reference `href`, the
response has status 201, the header `Location` equal to `href` as its only
header, and an empty body, the later `WriteHeader(204)` of the result
callback leaving the status at 201; when the resolver reports an error, the
response is the one `httpError` writes for that error on the fresh writer,
which carries no `Location` header. -/
theorem apiHandler_post_new (notFoundBytes : String) (fuel : Nat) (r : Request)
    (b rid : String) (params : Option String) (c : wsConn) (hm : r.Method = "POST")
    (hslash : ¬ (len (requestPath r) > len S.cfg.APIPath ∧ lastByteIsSlash (requestPath r) = true))
    (hpa : H.PathToRIDAction (requestPath r) r.URL.RawQuery S.cfg.APIPath = (rid, "new"))
    (hrid : H.IsValidRID rid true = true) (haction : H.IsValidRID "new" false = true)
    (hb : r.Body = .ok b)
    (hparams : (TrimSpace b = "" ∧ params = none) ∨
      (TrimSpace b ≠ "" ∧ ∃ p, J.Unmarshal b = .ok p ∧ params = some p))
    (hc : S.newWSConn r = some c) :
    (∀ href : String, c.newResource rid S.cfg.APIPath params = (href, none) →
        apiHandler J K H S notFoundBytes fuel r World.start = .ret
          { w :=
              { header := [("Location", href)]
                wroteHeader := true
                status := 201
                sentHeader := [("Location", href)]
                body := "" }
            trace := [.newWSConn, .Enqueue] ++ authEvents S ++
              [.NewHTTPResource rid S.cfg.APIPath params, .closeDone, .dispose] }) ∧
      ∀ (href : String) (e : GoError), c.newResource rid S.cfg.APIPath params = (href, some e) →
        apiHandler J K H S notFoundBytes fuel r World.start =
            (match httpError J K fuel ResponseWriter.fresh e with
              | .ret w1 => .ret
                { w := w1
                  trace := [.newWSConn, .Enqueue] ++ authEvents S ++
                    [.NewHTTPResource rid S.cfg.APIPath params, .closeDone, .dispose] }
              | .panic => .panic
              | .fuel => .fuel) ∧
          ∀ w1, httpError J K fuel ResponseWriter.fresh e = .ret w1 →
            w1.header = [contentTypeJSON] ∧ w1.sentHeader = [contentTypeJSON] := by
  have hpost := apiHandler_post J K H S notFoundBytes fuel r World.start b hm hslash
    (by rw [hpa]; exact hrid) (by rw [hpa]; exact haction) hb
  have hrun : apiHandler J K H S notFoundBytes fuel r World.start =
      temporaryConn J K S fuel r (apiHandler.post S rid "new" params) World.start := by
    rw [hpost, hpa]
    rcases hparams with ⟨ht, hp⟩ | ⟨ht, p, hu, hp⟩
    · rw [if_neg (not_not.mpr ht), hp]
    · rw [if_pos ht, hp]
      simp only [hu]
  rw [hrun, temporaryConn_some J K S fuel r _ World.start c hc]
  refine ⟨fun href hnew => ?_, fun href e hnew => ⟨?_, fun w1 hw1 => ?_⟩⟩
  · simp [apiHandler.post, wsConn.NewHTTPResource, hnew, World.log, World.start,
      temporaryConn.rs, ResponseWriter.Set, ResponseWriter.WriteHeader, ResponseWriter.fresh,
      StatusCreated, StatusNoContent]
  · simp only [apiHandler.post, if_true, wsConn.NewHTTPResource, hnew, World.log, World.start,
      temporaryConn.rs, List.nil_append, List.append_assoc]
    cases httpError J K fuel ResponseWriter.fresh e <;> simp
  · obtain ⟨e1, out, _, hw⟩ := httpError_ret J K fuel ResponseWriter.fresh w1 e hw1
    subst hw
    simp [ResponseWriter.Set, ResponseWriter.WriteHeader, ResponseWriter.Write,
      ResponseWriter.fresh, contentTypeJSON]
    split <;> simp

/-- The instance of C7 for the body `oops` posted to `/api/todos.7/delete`. -/
theorem apiHandler_invalid_json_witness :
    apiHandler Example.json Example.consts Example.httpapi (Example.service Example.conn)
        Example.notFoundBytes 1 (Example.request "POST" "/api/todos.7/delete" "oops")
        World.start = .ret
      { w :=
          { header := [contentTypeJSON]
            wroteHeader := true
            status := 400
            sentHeader := [contentTypeJSON]
            body := "\x7b\"code\":\"system.badRequest\",\"message\":\"Error decoding request body: invalid character\"\x7d" }
        trace := [] } :=
  apiHandler_invalid_json Example.json Example.consts Example.httpapi
    (Example.service Example.conn) (by decide) Example.notFoundBytes 0
    (Example.request "POST" "/api/todos.7/delete" "oops") World.start "oops"
    "invalid character"
    "\x7b\"code\":\"system.badRequest\",\"message\":\"Error decoding request body: invalid character\"\x7d"
    rfl (by decide) rfl rfl rfl (by decide) rfl rfl rfl

/-- The instance of C9 for `GET /api/todos.7/`. -/
theorem apiHandler_get_trailing_slash_witness :
    apiHandler Example.json Example.consts Example.httpapi (Example.service Example.conn)
        Example.notFoundBytes 1 (Example.request "GET" "/api/todos.7/" "") World.start = .ret
      { w :=
          { header := [contentTypeJSON]
            wroteHeader := true
            status := 404
            sentHeader := [contentTypeJSON]
            body := "\x7b\"code\":\"system.notFound\",\"message\":\"Not found\"\x7d" }
        trace := [] } :=
  (apiHandler_get_trailing_slash Example.json Example.consts Example.httpapi
    (Example.service Example.conn) Example.notFoundBytes 1
    (Example.request "GET" "/api/todos.7/" "") World.start "todos.7/" rfl rfl rfl (by decide)
    rfl rfl).2

/-- The instance of C10 for a body of blanks posted to `/api/todos.7/delete`:
the resolver is called with nil parameters and the response is 204. -/
theorem apiHandler_blank_body_witness :
    apiHandler Example.json Example.consts Example.httpapi (Example.service Example.conn)
        Example.notFoundBytes 1 (Example.request "POST" "/api/todos.7/delete" " \n\t ")
        World.start = .ret
      { w :=
          { header := []
            wroteHeader := true
            status := 204
            sentHeader := []
            body := "" }
        trace := [.newWSConn, .Enqueue, .CallResource "todos.7" "delete" none, .closeDone,
          .dispose] } :=
  ((apiHandler_blank_body Example.json Example.consts Example.httpapi
    (Example.service Example.conn) Example.notFoundBytes 1
    (Example.request "POST" "/api/todos.7/delete" " \n\t ") World.start " \n\t " "todos.7"
    "delete" rfl (by decide) rfl rfl rfl rfl (by decide)).2 Example.conn rfl).trans rfl

/-- The instance of C8 for the scenario `POST /api/todos/new` with the body
`{"text":"buy milk"}`: status 201 and `Location: /api/todos.7`; and for a
resolver that denies access: the response of `httpError`, status 401. -/
theorem apiHandler_post_new_witness :
    apiHandler Example.json Example.consts Example.httpapi (Example.service Example.conn)
        Example.notFoundBytes 1
        (Example.request "POST" "/api/todos/new" "\x7b\"text\":\"buy milk\"\x7d")
        World.start = .ret
      { w :=
          { header := [("Location", "/api/todos.7")]
            wroteHeader := true
            status := 201
            sentHeader := [("Location", "/api/todos.7")]
            body := "" }
        trace := [.newWSConn, .Enqueue,
          .NewHTTPResource "todos" "/api/" (some "\x7b\"text\":\"buy milk\"\x7d"), .closeDone,
          .dispose] } ∧
      apiHandler Example.json Example.consts Example.httpapi
        (Example.service Example.connDenied) Example.notFoundBytes 1
        (Example.request "POST" "/api/todos/new" "\x7b\"text\":\"buy milk\"\x7d")
        World.start = .ret
      { w :=
          { header := [contentTypeJSON]
            wroteHeader := true
            status := 401
            sentHeader := [contentTypeJSON]
            body := "\x7b\"code\":\"system.accessDenied\",\"message\":\"Access denied\"\x7d" }
        trace := [.newWSConn, .Enqueue,
          .NewHTTPResource "todos" "/api/" (some "\x7b\"text\":\"buy milk\"\x7d"), .closeDone,
          .dispose] } :=
  ⟨(apiHandler_post_new Example.json Example.consts Example.httpapi
      (Example.service Example.conn) Example.notFoundBytes 1
      (Example.request "POST" "/api/todos/new" "\x7b\"text\":\"buy milk\"\x7d")
      "\x7b\"text\":\"buy milk\"\x7d" "todos" (some "\x7b\"text\":\"buy milk\"\x7d")
      Example.conn rfl (by decide) rfl rfl rfl rfl
      (Or.inr ⟨by decide, "\x7b\"text\":\"buy milk\"\x7d", rfl, rfl⟩) rfl).1 "/api/todos.7" rfl,
    ((apiHandler_post_new Example.json Example.consts Example.httpapi
      (Example.service Example.connDenied) Example.notFoundBytes 1
      (Example.request "POST" "/api/todos/new" "\x7b\"text\":\"buy milk\"\x7d")
      "\x7b\"text\":\"buy milk\"\x7d" "todos" (some "\x7b\"text\":\"buy milk\"\x7d")
      Example.connDenied rfl (by decide) rfl rfl rfl rfl
      (Or.inr ⟨by decide, "\x7b\"text\":\"buy milk\"\x7d", rfl, rfl⟩) rfl).2 ""
      (.res ⟨"system.accessDenied", "Access denied"⟩) rfl).1.trans rfl⟩

/-- C6 as stated fails on the create path: for `POST /api/todos/new` the
resolver reports success, the result callback receives no data and no error,
and the response it leaves has status 201, not 204, since the status was
written before the callback ran. -/
theorem rs_no_data_after_created :
    ∃ σ1 : World,
      apiHandler Example.json Example.consts Example.httpapi (Example.service Example.conn)
          Example.notFoundBytes 1 (Example.request "POST" "/api/todos/new" "") World.start =
          .ret σ1 ∧
        temporaryConn.rs Example.json Example.consts 1 none none
          { w := (ResponseWriter.fresh.Set "Location" "/api/todos.7").WriteHeader StatusCreated
            trace := [.newWSConn, .Enqueue, .NewHTTPResource "todos" "/api/" none] } =
          .ret σ1 ∧
        σ1.w.status = 201 ∧ σ1.w.status ≠ 204 :=
  ⟨{ w := ⟨[("Location", "/api/todos.7")], true, 201, [("Location", "/api/todos.7")], ""⟩
     trace := [.newWSConn, .Enqueue, .NewHTTPResource "todos" "/api/" none, .closeDone,
       .dispose] },
    rfl, rfl, rfl, by decide⟩

/-- C6, amended: a successful result (no error) delivered to the result
callback on a response without a status: when the data is absent the
response gets status 204, its header map and its body are left as they were
(no content type set, nothing written); data that serializes to `null` gives
the same outcome as absent data, on every response; data that serializes to
other bytes gets the JSON content type, status 200 and those bytes as body.
In each case the session is then closed and disposed. -/
theorem rs_null_normalisation (fuel : Nat) (σ : World) :
    (σ.w.wroteHeader = false →
        temporaryConn.rs J K fuel none none σ = .ret
          { w :=
              { header := σ.w.header
                wroteHeader := true
                status := 204
                sentHeader := σ.w.header
                body := σ.w.body }
            trace := σ.trace ++ [.closeDone, .dispose] }) ∧
      (∀ d : Data, J.Marshal d = .ok "null" →
        temporaryConn.rs J K fuel (some d) none σ = temporaryConn.rs J K fuel none none σ) ∧
      ∀ (d : Data) (out : String), J.Marshal d = .ok out → out ≠ "null" →
        σ.w.wroteHeader = false →
        temporaryConn.rs J K fuel (some d) none σ = .ret
          { w :=
              { header := contentTypeJSON :: σ.w.header.filter (fun kv => kv.1 ≠ "Content-Type")
                wroteHeader := true
                status := 200
                sentHeader :=
                  contentTypeJSON :: σ.w.header.filter (fun kv => kv.1 ≠ "Content-Type")
                body := σ.w.body ++ out }
            trace := σ.trace ++ [.closeDone, .dispose] } := by
  refine ⟨fun hw => ?_, fun d hd => ?_, fun d out hd hne hw => ?_⟩
  · simp [temporaryConn.rs, ResponseWriter.WriteHeader, hw, StatusNoContent]
  · simp [temporaryConn.rs, hd, nullBytes]
  · simp [temporaryConn.rs, hd, nullBytes, hne, ResponseWriter.Set, ResponseWriter.Write,
      ResponseWriter.WriteHeader, hw, ResponseWriter.bodyAllowed, contentTypeJSON]

/-- The instance of amended C6 at the start of a request: absent data and a
raw `null` both give 204 without header and body; an object gives 200. -/
theorem rs_null_normalisation_witness :
    temporaryConn.rs Example.json Example.consts 1 none none World.start =
        .ret ⟨⟨[], true, 204, [], ""⟩, [.closeDone, .dispose]⟩ ∧
      temporaryConn.rs Example.json Example.consts 1 (some (.rawMessage "null")) none
        World.start = temporaryConn.rs Example.json Example.consts 1 none none World.start ∧
      temporaryConn.rs Example.json Example.consts 1
        (some (.rawMessage "\x7b\"name\":\"Alice\"\x7d")) none World.start =
        .ret ⟨⟨[contentTypeJSON], true, 200, [contentTypeJSON], "\x7b\"name\":\"Alice\"\x7d"⟩,
          [.closeDone, .dispose]⟩ :=
  ⟨(rs_null_normalisation Example.json Example.consts 1 World.start).1 rfl,
    (rs_null_normalisation Example.json Example.consts 1 World.start).2.1
      (.rawMessage "null") rfl,
    (rs_null_normalisation Example.json Example.consts 1 World.start).2.2
      (.rawMessage "\x7b\"name\":\"Alice\"\x7d") "\x7b\"name\":\"Alice\"\x7d" rfl (by decide)
      rfl⟩

end Handler

/-! ## Theorems: termination of the flat encoder -/

section Termination

open encoderJSONFlat

variable (J : Json) (K : reserr.Consts)

theorem remaining_mono (subs : List Subscription) (p q : List String) (h : p ⊆ q) :
    remaining subs q ≤ remaining subs p := by
  unfold remaining
  apply Finset.card_le_card
  intro x hx
  simp only [Finset.mem_sdiff, List.mem_toFinset] at hx ⊢
  exact ⟨hx.1, fun hp => hx.2 (h hp)⟩

theorem remaining_push (subs : List Subscription) (p : List String) (s : Subscription)
    (hs : s ∈ subs) (hp : s.rid ∉ p) : remaining subs (p ++ [s.rid]) < remaining subs p := by
  unfold remaining
  apply Finset.card_lt_card
  rw [Finset.ssubset_iff_of_subset]
  · refine ⟨s.rid, ?_, ?_⟩
    · simp only [Finset.mem_sdiff, List.mem_toFinset, List.mem_map]
      exact ⟨⟨s, hs, rfl⟩, hp⟩
    · simp
  · intro x hx
    simp only [Finset.mem_sdiff, List.mem_toFinset, List.mem_append, List.mem_singleton,
      not_or] at hx ⊢
    exact ⟨hx.1, hx.2.1⟩

theorem remaining_nil_le (subs : List Subscription) : remaining subs [] ≤ subs.length := by
  unfold remaining
  calc ((subs.map (fun s => s.rid)).toFinset \ ([] : List String).toFinset).card
      ≤ (subs.map (fun s => s.rid)).toFinset.card := Finset.card_le_card Finset.sdiff_subset
    _ ≤ (subs.map (fun s => s.rid)).length := List.toFinset_card_le _
    _ = subs.length := List.length_map _ _

/-- The collection loop returns when every nested call does, and it only
extends the path. -/
theorem rangeCollection_returns (subs : List Subscription) (n : Nat)
    (enc : encoderJSONFlat → Subscription → Run (encoderJSONFlat × Option String))
    (Ref : String → Option Subscription)
    (henc : ∀ e sc, sc ∈ subs → remaining subs e.path < n →
      ∃ e1 o, enc e sc = .ret (e1, o) ∧ e.path ⊆ e1.path)
    (vals : List codec.Value)
    (hvals : ∀ v ∈ vals, v.Type_ = codec.ValueType.ValueTypeResource →
      ∃ sc ∈ subs, Ref v.RID = some sc) :
    ∀ (i : Nat) (e : encoderJSONFlat), remaining subs e.path < n →
      ∃ e1 o, rangeCollection enc Ref i vals e = .ret (e1, o) ∧ e.path ⊆ e1.path := by
  induction vals with
  | nil => intro i e _; exact ⟨e, none, rfl, List.Subset.refl _⟩
  | cons v vals ih =>
    intro i e he
    have ih1 := ih (fun v1 hv1 => hvals v1 (List.mem_cons_of_mem _ hv1))
    have hp1 : (if i > 0 then e.WriteByte ',' else e).path = e.path := by
      split <;> rfl
    unfold rangeCollection
    by_cases hv : v.Type_ = codec.ValueType.ValueTypeResource
    · obtain ⟨sc, hsc, href⟩ := hvals v (List.mem_cons_self _ _) hv
      obtain ⟨e2, o, henc2, hsub2⟩ := henc (if i > 0 then e.WriteByte ',' else e) sc hsc
        (by rw [hp1]; exact he)
      rw [hp1] at hsub2
      simp only [hv, if_true, href, henc2]
      cases o with
      | none =>
        obtain ⟨e3, o3, h3, hsub3⟩ := ih1 (i + 1) e2
          (lt_of_le_of_lt (remaining_mono subs _ _ hsub2) he)
        exact ⟨e3, o3, h3, hsub2.trans hsub3⟩
      | some err => exact ⟨e2, some err, rfl, hsub2⟩
    · simp only [hv, if_false]
      obtain ⟨e3, o3, h3, hsub3⟩ := ih1 (i + 1)
        ((if i > 0 then e.WriteByte ',' else e).Write v.RawMessage)
        (by show remaining subs (if i > 0 then e.WriteByte ',' else e).path < n
            rw [hp1]; exact he)
      refine ⟨e3, o3, h3, ?_⟩
      have : ((if i > 0 then e.WriteByte ',' else e).Write v.RawMessage).path = e.path := hp1
      rw [this] at hsub3
      exact hsub3

/-- The model loop returns when every nested call does, and it only extends
the path. -/
theorem rangeModel_returns (subs : List Subscription) (n : Nat)
    (enc : encoderJSONFlat → Subscription → Run (encoderJSONFlat × Option String))
    (Ref : String → Option Subscription)
    (henc : ∀ e sc, sc ∈ subs → remaining subs e.path < n →
      ∃ e1 o, enc e sc = .ret (e1, o) ∧ e.path ⊆ e1.path)
    (vals : List (String × codec.Value))
    (hvals : ∀ kv ∈ vals, kv.2.Type_ = codec.ValueType.ValueTypeResource →
      ∃ sc ∈ subs, Ref kv.2.RID = some sc) :
    ∀ (first : Bool) (e : encoderJSONFlat), remaining subs e.path < n →
      ∃ e1 o, rangeModel J enc Ref first vals e = .ret (e1, o) ∧ e.path ⊆ e1.path := by
  induction vals with
  | nil => intro first e _; exact ⟨e, none, rfl, List.Subset.refl _⟩
  | cons kv vals ih =>
    obtain ⟨k, v⟩ := kv
    intro first e he
    have ih1 := ih (fun v1 hv1 => hvals v1 (List.mem_cons_of_mem _ hv1))
    have hp1 : (if (!first) = true then e.WriteByte ',' else e).path = e.path := by
      split <;> rfl
    unfold rangeModel
    cases hk : J.MarshalString k with
    | error msg => exact ⟨_, some msg, rfl, by rw [hp1]; exact List.Subset.refl _⟩
    | ok dta =>
      have hp2 : (((if (!first) = true then e.WriteByte ',' else e).Write dta).WriteByte
          ':').path = e.path := hp1
      by_cases hv : v.Type_ = codec.ValueType.ValueTypeResource
      · obtain ⟨sc, hsc, href⟩ := hvals (k, v) (List.mem_cons_self _ _) hv
        obtain ⟨e2, o, henc2, hsub2⟩ := henc _ sc hsc (by rw [hp2]; exact he)
        rw [hp2] at hsub2
        simp only [hv, if_true, href, henc2]
        cases o with
        | none =>
          obtain ⟨e3, o3, h3, hsub3⟩ := ih1 false e2
            (lt_of_le_of_lt (remaining_mono subs _ _ hsub2) he)
          exact ⟨e3, o3, h3, hsub2.trans hsub3⟩
        | some err => exact ⟨e2, some err, rfl, hsub2⟩
      · simp only [hv, if_false]
        obtain ⟨e3, o3, h3, hsub3⟩ := ih1 false
          ((((if (!first) = true then e.WriteByte ',' else e).Write dta).WriteByte ':').Write
            v.RawMessage)
          (by show remaining subs (((if (!first) = true then e.WriteByte ',' else e).Write
                dta).WriteByte ':').path < n
              rw [hp2]; exact he)
        refine ⟨e3, o3, h3, ?_⟩
        have : ((((if (!first) = true then e.WriteByte ',' else e).Write dta).WriteByte
            ':').Write v.RawMessage).path = e.path := hp1
        rw [this] at hsub3
        exact hsub3

/-- On a closed graph `encodeSubscription` returns, without panic, as soon as
its fuel exceeds the number of RIDs of the graph that are not on the path;
and it only extends the path. -/
theorem encodeSubscription_returns (Ref : Subscription → String → Option Subscription)
    (subs : List Subscription) (hclosed : Closed Ref subs) :
    ∀ (n : Nat) (e : encoderJSONFlat) (s : Subscription), s ∈ subs →
      remaining subs e.path < n →
      ∃ e1 o, encodeSubscription J K Ref n e s = .ret (e1, o) ∧ e.path ⊆ e1.path := by
  intro n
  induction n with
  | zero => intro e s _ h; exact absurd h (Nat.not_lt_zero _)
  | succ n ih =>
    intro e s hs he
    unfold encodeSubscription
    by_cases hc : containsString e.path s.RID = true
    · simp only [hc, if_true]
      cases J.MarshalString s.RID with
      | error msg => exact ⟨_, some msg, rfl, List.Subset.refl _⟩
      | ok dta => exact ⟨_, none, rfl, List.Subset.refl _⟩
    · simp only [hc, Bool.false_eq_true, if_false]
      cases herr : s.Error with
      | some err =>
        simp only
        cases J.MarshalError (reserr.RESError K err) with
        | error msg => exact ⟨_, some msg, rfl, List.Subset.refl _⟩
        | ok dta => exact ⟨_, none, rfl, List.Subset.refl _⟩
      | none =>
        have hnot : s.rid ∉ e.path := by
          simpa [containsString, Subscription.RID] using hc
        have hlt : remaining subs (e.path ++ [s.rid]) < n :=
          lt_of_lt_of_le (remaining_push subs e.path s hs hnot) (Nat.lt_succ_iff.mp he)
        have hsub1 : e.path ⊆ e.path ++ [s.rid] := List.subset_append_left _ _
        simp only
        cases ht : s.ResourceType with
        | TypeCollection =>
          have hvals : ∀ v ∈ s.CollectionValues,
              v.Type_ = codec.ValueType.ValueTypeResource → ∃ sc ∈ subs, Ref s v.RID = some sc := by
            intro v hv hty
            apply hclosed s hs
            simp only [Subscription.refs, ht, List.mem_map, List.mem_filter, decide_eq_true_eq]
            exact ⟨v, ⟨hv, hty⟩, rfl⟩
          obtain ⟨e2, o, h2, hsub2⟩ := rangeCollection_returns subs n
            (fun e2 sc => encodeSubscription J K Ref n e2 sc) (Ref s) ih s.CollectionValues
            hvals 0 (encoderJSONFlat.WriteByte ⟨e.b, e.path ++ [s.rid]⟩ '[') hlt
          simp only [h2]
          cases o with
          | none => exact ⟨_, none, rfl, hsub1.trans hsub2⟩
          | some err => exact ⟨_, some err, rfl, hsub1.trans hsub2⟩
        | TypeModel =>
          have hvals : ∀ kv ∈ s.ModelValues,
              kv.2.Type_ = codec.ValueType.ValueTypeResource →
              ∃ sc ∈ subs, Ref s kv.2.RID = some sc := by
            intro kv hkv hty
            apply hclosed s hs
            simp only [Subscription.refs, ht, List.mem_map, List.mem_filter, decide_eq_true_eq]
            exact ⟨kv, ⟨hkv, hty⟩, rfl⟩
          obtain ⟨e2, o, h2, hsub2⟩ := rangeModel_returns J subs n
            (fun e2 sc => encodeSubscription J K Ref n e2 sc) (Ref s) ih s.ModelValues
            hvals true (encoderJSONFlat.WriteByte ⟨e.b, e.path ++ [s.rid]⟩ '\x7b') hlt
          simp only [h2]
          cases o with
          | none => exact ⟨_, none, rfl, hsub1.trans hsub2⟩
          | some err => exact ⟨_, some err, rfl, hsub1.trans hsub2⟩
        | TypeOther => exact ⟨_, none, rfl, hsub1⟩

/-- The collection loop keeps its result when the nested call is replaced by
one that returns at least as often. -/
theorem rangeCollection_mono
    (enc enc2 : encoderJSONFlat → Subscription → Run (encoderJSONFlat × Option String))
    (Ref : String → Option Subscription)
    (henc : ∀ e sc r, enc e sc = .ret r → enc2 e sc = .ret r) (vals : List codec.Value) :
    ∀ (i : Nat) (e : encoderJSONFlat) (r : encoderJSONFlat × Option String),
      rangeCollection enc Ref i vals e = .ret r → rangeCollection enc2 Ref i vals e = .ret r := by
  induction vals with
  | nil => intro i e r h; exact h
  | cons v vals ih =>
    intro i e r h
    unfold rangeCollection at h ⊢
    by_cases hv : v.Type_ = codec.ValueType.ValueTypeResource
    · simp only [hv, if_true] at h ⊢
      cases href : Ref v.RID with
      | none => simp [href] at h
      | some sc =>
        simp only [href] at h ⊢
        cases hcall : enc (if i > 0 then e.WriteByte ',' else e) sc with
        | panic => simp [hcall] at h
        | fuel => simp [hcall] at h
        | ret r1 =>
          obtain ⟨e2, o⟩ := r1
          rw [hcall] at h
          rw [henc _ sc _ hcall]
          cases o with
          | none => exact ih _ _ _ h
          | some err => exact h
    · simp only [hv, if_false] at h ⊢
      exact ih _ _ _ h

/-- The model loop keeps its result when the nested call is replaced by one
that returns at least as often. -/
theorem rangeModel_mono
    (enc enc2 : encoderJSONFlat → Subscription → Run (encoderJSONFlat × Option String))
    (Ref : String → Option Subscription)
    (henc : ∀ e sc r, enc e sc = .ret r → enc2 e sc = .ret r)
    (vals : List (String × codec.Value)) :
    ∀ (first : Bool) (e : encoderJSONFlat) (r : encoderJSONFlat × Option String),
      rangeModel J enc Ref first vals e = .ret r → rangeModel J enc2 Ref first vals e = .ret r := by
  induction vals with
  | nil => intro first e r h; exact h
  | cons kv vals ih =>
    obtain ⟨k, v⟩ := kv
    intro first e r h
    unfold rangeModel at h ⊢
    generalize (if (!first) = true then e.WriteByte ',' else e) = e0 at h ⊢
    cases hk : J.MarshalString k with
    | error msg => simp only [hk] at h ⊢; exact h
    | ok dta =>
      simp only [hk] at h ⊢
      by_cases hv : v.Type_ = codec.ValueType.ValueTypeResource
      · simp only [hv, if_true] at h ⊢
        cases href : Ref v.RID with
        | none => simp [href] at h
        | some sc =>
          simp only [href] at h ⊢
          cases hcall : enc ((e0.Write dta).WriteByte ':') sc with
          | panic => simp [hcall] at h
          | fuel => simp [hcall] at h
          | ret r1 =>
            obtain ⟨e2, o⟩ := r1
            rw [hcall] at h
            rw [henc _ sc _ hcall]
            cases o with
            | none => exact ih _ _ _ h
            | some err => exact h
      · simp only [hv, if_false] at h ⊢
        exact ih _ _ _ h

/-- More fuel does not change a result of `encodeSubscription`. -/
theorem encodeSubscription_fuel_succ (Ref : Subscription → String → Option Subscription) :
    ∀ (n : Nat) (e : encoderJSONFlat) (s : Subscription) (r : encoderJSONFlat × Option String),
      encodeSubscription J K Ref n e s = .ret r →
      encodeSubscription J K Ref (n + 1) e s = .ret r := by
  intro n
  induction n with
  | zero => intro e s r h; simp [encodeSubscription] at h
  | succ n ih =>
    intro e s r h
    unfold encodeSubscription at h ⊢
    by_cases hc : containsString e.path s.RID = true
    · simp only [hc, if_true] at h ⊢; exact h
    · simp only [hc, Bool.false_eq_true, if_false] at h ⊢
      cases herr : s.Error with
      | some err => simp only [herr] at h ⊢; exact h
      | none =>
        simp only [herr] at h ⊢
        cases ht : s.ResourceType with
        | TypeOther => simp only [ht] at h ⊢; exact h
        | TypeCollection =>
          simp only [ht] at h ⊢
          cases hloop : rangeCollection (fun e2 sc => encodeSubscription J K Ref n e2 sc) (Ref s)
              0 s.CollectionValues (encoderJSONFlat.WriteByte ⟨e.b, e.path ++ [s.rid]⟩ '[') with
          | panic => simp [hloop] at h
          | fuel => simp [hloop] at h
          | ret r1 =>
            rw [hloop] at h
            rw [rangeCollection_mono _ (fun e2 sc => encodeSubscription J K Ref (n + 1) e2 sc)
              (Ref s) ih s.CollectionValues _ _ _ hloop]
            exact h
        | TypeModel =>
          simp only [ht] at h ⊢
          cases hloop : rangeModel J (fun e2 sc => encodeSubscription J K Ref n e2 sc) (Ref s)
              true s.ModelValues (encoderJSONFlat.WriteByte ⟨e.b, e.path ++ [s.rid]⟩ '\x7b') with
          | panic => simp [hloop] at h
          | fuel => simp [hloop] at h
          | ret r1 =>
            rw [hloop] at h
            rw [rangeModel_mono J _ (fun e2 sc => encodeSubscription J K Ref (n + 1) e2 sc)
              (Ref s) ih s.ModelValues _ _ _ hloop]
            exact h

theorem encodeSubscription_fuel_le (Ref : Subscription → String → Option Subscription)
    (n m : Nat) (hnm : n ≤ m) (e : encoderJSONFlat) (s : Subscription)
    (r : encoderJSONFlat × Option String) (h : encodeSubscription J K Ref n e s = .ret r) :
    encodeSubscription J K Ref m e s = .ret r := by
  induction hnm with
  | refl => exact h
  | step _ ih => exact encodeSubscription_fuel_succ J K Ref _ e s r ih

/-- C4: on a finite resource graph, a list of subscriptions in which every
reference resolves through the lookup to a member of the list, cycles and
self-references included, `Encode` of a member returns: there is a result
that `Encode` yields, as a normal return, for every fuel above the number of
subscriptions, and so does `encodeSubscription` from the empty path. -/
theorem Encode_terminates (Ref : Subscription → String → Option Subscription)
    (subs : List Subscription) (s : Subscription) (hs : s ∈ subs)
    (hclosed : Closed Ref subs) :
    (∃ r, ∀ fuel, subs.length + 1 ≤ fuel → Encode J K Ref fuel ⟨"", []⟩ s = .ret r) ∧
      ∃ r, ∀ fuel, subs.length + 1 ≤ fuel →
        encodeSubscription J K Ref fuel ⟨"", []⟩ s = .ret r := by
  obtain ⟨e1, o, h1, _⟩ := encodeSubscription_returns J K Ref subs hclosed (subs.length + 1)
    ⟨"", []⟩ s hs (Nat.lt_succ_of_le (remaining_nil_le subs))
  have hall : ∀ fuel, subs.length + 1 ≤ fuel →
      encodeSubscription J K Ref fuel ⟨"", []⟩ s = .ret (e1, o) :=
    fun fuel hf => encodeSubscription_fuel_le J K Ref _ fuel hf _ s _ h1
  refine ⟨?_, ⟨(e1, o), hall⟩⟩
  cases o with
  | none => exact ⟨(e1.b, none), fun fuel hf => by simp [Encode, hall fuel hf]⟩
  | some err => exact ⟨("", some err), fun fuel hf => by simp [Encode, hall fuel hf]⟩

/-- The instance of C4 on the cycle of A and B. -/
theorem Encode_terminates_witness :
    Closed (Example.lookup Example.cycle) Example.cycle ∧
      ∃ r, ∀ fuel, 3 ≤ fuel →
        Encode Example.json Example.consts (Example.lookup Example.cycle) fuel ⟨"", []⟩
          (Example.model "A" [("b", Example.ref "B")]) = .ret r :=
  ⟨by decide,
    (Encode_terminates Example.json Example.consts (Example.lookup Example.cycle)
      Example.cycle (Example.model "A" [("b", Example.ref "B")]) (by decide) (by decide)).1⟩

/-- C5: the node X in error state is rendered as its serialized error whatever
its shape, but the bytes of a sibling slot depend on the value in the slot of
X: in the collection P the second slot refers to the model D; with X in the
first slot D is rendered in full, with a reference to D in the first slot
the second slot is rendered as the stub of D, because the RID of D pushed
while the first slot was rendered is never removed from the path. -/
theorem encode_error_sibling :
    Encode Example.json Example.consts (Example.lookup (Example.siblings "X")) 3 ⟨"", []⟩
        (Example.collection "P" [Example.ref "X", Example.ref "D"]) =
        .ret ("[\x7b\"code\":\"system.notFound\",\"message\":\"Not found\"\x7d,\x7b\"x\":1\x7d]",
          none) ∧
      Encode Example.json Example.consts (Example.lookup (Example.siblings "D")) 3 ⟨"", []⟩
        (Example.collection "P" [Example.ref "D", Example.ref "D"]) =
        .ret ("[\x7b\"x\":1\x7d,\x7b\"rid\":\"D\"\x7d]", none) := by
  constructor <;> rfl

end Termination

/-! ## Theorems: rejections, failures and disposal -/

section Session

variable (J : Json) (K : reserr.Consts) (H : Httpapi) (S : Service)

theorem httpErrorCode_notFound : httpErrorCode K K.CodeNotFound = 404 := by
  simp [httpErrorCode, StatusNotFound]

theorem httpErrorCode_methodNotAllowed (hK : K.codes.Nodup) :
    httpErrorCode K K.CodeMethodNotAllowed = 405 := by
  simp only [reserr.Consts.codes, List.nodup_cons, List.mem_cons, List.mem_singleton,
    not_or, List.not_mem_nil, not_false_eq_true, List.nodup_nil, and_true] at hK
  obtain ⟨_, ⟨_, _, n4, _, _⟩, ⟨_, t4, _, _⟩, ⟨a4, _, _⟩, _⟩ := hK
  simp [httpErrorCode, StatusMethodNotAllowed, Ne.symm n4, Ne.symm t4, Ne.symm a4]

theorem httpErrorCode_internalError (hK : K.codes.Nodup) :
    httpErrorCode K K.CodeInternalError = 500 := by
  simp only [reserr.Consts.codes, List.nodup_cons, List.mem_cons, List.mem_singleton,
    not_or, List.not_mem_nil, not_false_eq_true, List.nodup_nil, and_true] at hK
  obtain ⟨_, ⟨_, _, _, n5, _⟩, ⟨_, _, t5, _⟩, ⟨_, a5, _⟩, ⟨m5, _⟩, _⟩ := hK
  simp [httpErrorCode, StatusInternalServerError, Ne.symm n5, Ne.symm t5, Ne.symm a5,
    Ne.symm m5]

theorem httpErrorCode_serviceUnavailable (hK : K.codes.Nodup) :
    httpErrorCode K K.CodeServiceUnavailable = 503 := by
  simp only [reserr.Consts.codes, List.nodup_cons, List.mem_cons, List.mem_singleton,
    not_or, List.not_mem_nil, not_false_eq_true, List.nodup_nil, and_true] at hK
  obtain ⟨_, ⟨_, _, _, _, n6⟩, ⟨_, _, _, t6⟩, ⟨_, _, a6⟩, ⟨_, m6⟩, i6⟩ := hK
  simp [httpErrorCode, StatusServiceUnavailable, Ne.symm n6, Ne.symm t6, Ne.symm a6,
    Ne.symm m6, Ne.symm i6]

/-- C11: for a request whose method is neither GET nor POST, whatever its path
and body, the handler answers with status 405 and the serialized
MethodNotAllowed error as body, and the trace of calls is left as it was:
`temporaryConn` is not run and no session is opened. -/
theorem apiHandler_method_not_allowed (hK : K.codes.Nodup) (notFoundBytes : String) (n : Nat)
    (r : Request) (σ : World) (out : String) (hget : r.Method ≠ "GET")
    (hpost : r.Method ≠ "POST") (hw : σ.w.wroteHeader = false)
    (hout : J.MarshalError (reserr.ErrMethodNotAllowed K) = .ok out) :
    apiHandler J K H S notFoundBytes (n + 1) r σ = .ret
      { w :=
          { header := contentTypeJSON :: σ.w.header.filter (fun kv => kv.1 ≠ "Content-Type")
            wroteHeader := true
            status := 405
            sentHeader := contentTypeJSON :: σ.w.header.filter (fun kv => kv.1 ≠ "Content-Type")
            body := σ.w.body ++ out }
        trace := σ.trace } := by
  unfold apiHandler
  rw [if_neg hget, if_neg hpost]
  simp only [World.onWriter]
  rw [httpError_ok J K n σ.w _ out hw (by simpa [reserr.RESError] using hout)]
  simp [reserr.RESError, reserr.ErrMethodNotAllowed, httpErrorCode_methodNotAllowed K hK,
    contentTypeJSON]

/-- The instance of C11 for a `DELETE` request. -/
theorem apiHandler_method_not_allowed_witness :
    apiHandler Example.json Example.consts Example.httpapi (Example.service Example.conn)
        Example.notFoundBytes 1 (Example.request "DELETE" "/api/todos.7" "") World.start = .ret
      { w :=
          { header := [contentTypeJSON]
            wroteHeader := true
            status := 405
            sentHeader := [contentTypeJSON]
            body :=
              "\x7b\"code\":\"system.methodNotAllowed\",\"message\":\"Method not allowed\"\x7d" }
        trace := [] } :=
  apiHandler_method_not_allowed Example.json Example.consts Example.httpapi
    (Example.service Example.conn) (by decide) Example.notFoundBytes 0
    (Example.request "DELETE" "/api/todos.7" "") World.start
    "\x7b\"code\":\"system.methodNotAllowed\",\"message\":\"Method not allowed\"\x7d"
    (by decide) (by decide) rfl rfl

/-- C13: when `newWSConn` yields no connection, `temporaryConn` answers with
status 503 and the serialized ServiceUnavailable error as body, for every
operation of the caller; the trace gains the attempt to create the session
and nothing else: nothing is enqueued, invoked, closed or disposed. -/
theorem temporaryConn_unavailable (hK : K.codes.Nodup) (n : Nat) (r : Request)
    (op : wsConn → Callback → World → Run World) (σ : World) (out : String)
    (hnone : S.newWSConn r = none) (hw : σ.w.wroteHeader = false)
    (hout : J.MarshalError (reserr.ErrServiceUnavailable K) = .ok out) :
    temporaryConn J K S (n + 1) r op σ = .ret
      { w :=
          { header := contentTypeJSON :: σ.w.header.filter (fun kv => kv.1 ≠ "Content-Type")
            wroteHeader := true
            status := 503
            sentHeader := contentTypeJSON :: σ.w.header.filter (fun kv => kv.1 ≠ "Content-Type")
            body := σ.w.body ++ out }
        trace := σ.trace ++ [.newWSConn] } := by
  unfold temporaryConn
  simp only [hnone, World.onWriter, World.log]
  rw [httpError_ok J K n σ.w _ out hw (by simpa [reserr.RESError] using hout)]
  simp [reserr.RESError, reserr.ErrServiceUnavailable, httpErrorCode_serviceUnavailable K hK,
    contentTypeJSON]

/-- The instance of C13 for a service without capacity and a POST operation. -/
theorem temporaryConn_unavailable_witness :
    temporaryConn Example.json Example.consts Example.serviceFull 1
        (Example.request "POST" "/api/todos/new" "")
        (apiHandler.post Example.serviceFull "todos" "new" none) World.start = .ret
      { w :=
          { header := [contentTypeJSON]
            wroteHeader := true
            status := 503
            sentHeader := [contentTypeJSON]
            body :=
              "\x7b\"code\":\"system.serviceUnavailable\",\"message\":\"Service unavailable\"\x7d" }
        trace := [.newWSConn] } :=
  temporaryConn_unavailable Example.json Example.consts Example.serviceFull (by decide) 0
    (Example.request "POST" "/api/todos/new" "")
    (apiHandler.post Example.serviceFull "todos" "new" none) World.start
    "\x7b\"code\":\"system.serviceUnavailable\",\"message\":\"Service unavailable\"\x7d"
    rfl rfl rfl

/-- C18: with `notFoundBytes` the NotFound error serialized by `init`, the
response of `notFoundHandler` is the response of `httpError` for
`reserr.ErrNotFound`, on every response writer; on a writer without a status
both are status 404, the JSON content type and the bytes of `notFoundBytes`. -/
theorem notFoundHandler_eq_httpError (notFoundBytes : String) (n : Nat) (w : ResponseWriter)
    (hinit : init J K = .ret notFoundBytes) :
    J.MarshalError (reserr.ErrNotFound K) = .ok notFoundBytes ∧
      httpError J K (n + 1) w (.res (reserr.ErrNotFound K)) =
        .ret (notFoundHandler notFoundBytes w) ∧
      (w.wroteHeader = false →
        notFoundHandler notFoundBytes w =
          { header := contentTypeJSON :: w.header.filter (fun kv => kv.1 ≠ "Content-Type")
            wroteHeader := true
            status := 404
            sentHeader := contentTypeJSON :: w.header.filter (fun kv => kv.1 ≠ "Content-Type")
            body := w.body ++ notFoundBytes }) := by
  have hmar : J.MarshalError (reserr.ErrNotFound K) = .ok notFoundBytes := by
    unfold init at hinit
    cases hm : J.MarshalError (reserr.ErrNotFound K) with
    | error msg => simp [hm] at hinit
    | ok out => simp only [hm] at hinit; injection hinit with h; rw [h]
  refine ⟨hmar, ?_, fun hw => ?_⟩
  · unfold httpError
    simp only [reserr.RESError, hmar, notFoundHandler]
    simp [reserr.ErrNotFound, httpErrorCode_notFound, StatusNotFound]
  · simp [notFoundHandler, ResponseWriter.Set, ResponseWriter.WriteHeader, ResponseWriter.Write,
      hw, StatusNotFound, ResponseWriter.bodyAllowed, contentTypeJSON]

/-- The instance of C18 on a fresh response writer. -/
theorem notFoundHandler_eq_httpError_witness :
    init Example.json Example.consts = .ret Example.notFoundBytes ∧
      httpError Example.json Example.consts 1 ResponseWriter.fresh
        (.res (reserr.ErrNotFound Example.consts)) =
        .ret (notFoundHandler Example.notFoundBytes ResponseWriter.fresh) ∧
      notFoundHandler Example.notFoundBytes ResponseWriter.fresh =
        ⟨[contentTypeJSON], true, 404, [contentTypeJSON],
          "\x7b\"code\":\"system.notFound\",\"message\":\"Not found\"\x7d"⟩ :=
  ⟨rfl,
    (notFoundHandler_eq_httpError Example.json Example.consts Example.notFoundBytes 0
      ResponseWriter.fresh rfl).2.1,
    (notFoundHandler_eq_httpError Example.json Example.consts Example.notFoundBytes 0
      ResponseWriter.fresh rfl).2.2 rfl⟩

/-- C15: for a result without error whose data is present and whose
serialization fails with text `msg`, the result callback answers through
`httpError`: on a response without a status, status 500 and the serialized
InternalError for `msg` as the only bytes of the body; the session is then
closed and disposed. -/
theorem rs_marshal_failure (hK : K.codes.Nodup) (n : Nat) (σ : World) (d : Data)
    (msg out : String) (hd : J.Marshal d = .error msg) (hw : σ.w.wroteHeader = false)
    (hout : J.MarshalError ⟨K.CodeInternalError, K.internalMessage msg⟩ = .ok out) :
    temporaryConn.rs J K (n + 1) (some d) none σ =
        (match httpError J K (n + 1) σ.w (.other msg) with
          | .ret w1 => .ret ⟨w1, σ.trace ++ [.closeDone, .dispose]⟩
          | .panic => .panic
          | .fuel => .fuel) ∧
      temporaryConn.rs J K (n + 1) (some d) none σ = .ret
        { w :=
            { header := contentTypeJSON :: σ.w.header.filter (fun kv => kv.1 ≠ "Content-Type")
              wroteHeader := true
              status := 500
              sentHeader :=
                contentTypeJSON :: σ.w.header.filter (fun kv => kv.1 ≠ "Content-Type")
              body := σ.w.body ++ out }
          trace := σ.trace ++ [.closeDone, .dispose] } := by
  have hrs : temporaryConn.rs J K (n + 1) (some d) none σ =
      (match httpError J K (n + 1) σ.w (.other msg) with
        | .ret w1 => .ret ⟨w1, σ.trace ++ [.closeDone, .dispose]⟩
        | .panic => .panic
        | .fuel => .fuel) := by
    simp only [temporaryConn.rs, hd]
  refine ⟨hrs, ?_⟩
  rw [hrs, httpError_ok J K n σ.w _ out hw (by simpa [reserr.RESError] using hout)]
  simp [reserr.RESError, httpErrorCode_internalError K hK, contentTypeJSON]

/-- The instance of C15 for a value of an unsupported type. -/
theorem rs_marshal_failure_witness :
    temporaryConn.rs Example.json Example.consts 1 (some (.other 0)) none World.start = .ret
      { w :=
          { header := [contentTypeJSON]
            wroteHeader := true
            status := 500
            sentHeader := [contentTypeJSON]
            body := "\x7b\"code\":\"system.internalError\",\"message\":\"Internal error: json: unsupported type\"\x7d" }
        trace := [.closeDone, .dispose] } :=
  (rs_marshal_failure Example.json Example.consts (by decide) 0 World.start (.other 0)
    "json: unsupported type"
    "\x7b\"code\":\"system.internalError\",\"message\":\"Internal error: json: unsupported type\"\x7d"
    rfl rfl rfl).2

/-- C14: given that the serializer accepts the InternalError object made for a
serialization failure (as `encoding/json` accepts every object of two
strings), `httpError` returns for every error with two units of fuel, that
is with at most one call of itself, and with the same response for every
larger fuel; when the error object serializes it does not call itself (one
unit of fuel); when its serialization fails with text `msg` it calls itself
exactly once (one unit of fuel does not suffice), with the failure, which is
classified as InternalError, and the response is status 500 with the
serialized InternalError. -/
theorem httpError_recursion_depth (hK : K.codes.Nodup)
    (hjson : ∀ msg : String, ∃ out : String,
      J.MarshalError ⟨K.CodeInternalError, K.internalMessage msg⟩ = .ok out)
    (w : ResponseWriter) (err : GoError) (hw : w.wroteHeader = false) :
    (∃ w1 : ResponseWriter, ∀ n : Nat, httpError J K (n + 2) w err = .ret w1) ∧
      (∀ out : String, J.MarshalError (reserr.RESError K err) = .ok out →
        httpError J K 1 w err = .ret
          { header := contentTypeJSON :: w.header.filter (fun kv => kv.1 ≠ "Content-Type")
            wroteHeader := true
            status := httpErrorCode K (reserr.RESError K err).Code
            sentHeader := contentTypeJSON :: w.header.filter (fun kv => kv.1 ≠ "Content-Type")
            body := w.body ++ out }) ∧
      ∀ msg : String, J.MarshalError (reserr.RESError K err) = .error msg →
        httpError J K 1 w err = .fuel ∧
          (∀ n : Nat, httpError J K (n + 2) w err = httpError J K (n + 1) w (.other msg)) ∧
          ∃ out : String,
            J.MarshalError ⟨K.CodeInternalError, K.internalMessage msg⟩ = .ok out ∧
            ∀ n : Nat, httpError J K (n + 2) w err = .ret
              { header := contentTypeJSON :: w.header.filter (fun kv => kv.1 ≠ "Content-Type")
                wroteHeader := true
                status := 500
                sentHeader :=
                  contentTypeJSON :: w.header.filter (fun kv => kv.1 ≠ "Content-Type")
                body := w.body ++ out } := by
  have hok : ∀ out : String, J.MarshalError (reserr.RESError K err) = .ok out →
      ∀ n : Nat, httpError J K (n + 1) w err = .ret
        { header := contentTypeJSON :: w.header.filter (fun kv => kv.1 ≠ "Content-Type")
          wroteHeader := true
          status := httpErrorCode K (reserr.RESError K err).Code
          sentHeader := contentTypeJSON :: w.header.filter (fun kv => kv.1 ≠ "Content-Type")
          body := w.body ++ out } := by
    intro out hout n
    rw [httpError_ok J K n w err out hw hout]
    rfl
  have hstep : ∀ msg : String, J.MarshalError (reserr.RESError K err) = .error msg →
      ∀ n : Nat, httpError J K (n + 2) w err = httpError J K (n + 1) w (.other msg) := by
    intro msg hfail n
    conv_lhs => unfold httpError
    simp only [hfail]
  have hfail500 : ∀ msg out : String, J.MarshalError (reserr.RESError K err) = .error msg →
      J.MarshalError ⟨K.CodeInternalError, K.internalMessage msg⟩ = .ok out →
      ∀ n : Nat, httpError J K (n + 2) w err = .ret
        { header := contentTypeJSON :: w.header.filter (fun kv => kv.1 ≠ "Content-Type")
          wroteHeader := true
          status := 500
          sentHeader := contentTypeJSON :: w.header.filter (fun kv => kv.1 ≠ "Content-Type")
          body := w.body ++ out } := by
    intro msg out hfail hout n
    rw [hstep msg hfail n,
      httpError_ok J K n w _ out hw (by simpa [reserr.RESError] using hout)]
    simp [reserr.RESError, httpErrorCode_internalError K hK, contentTypeJSON]
  refine ⟨?_, fun out hout => hok out hout 0, fun msg hfail => ⟨?_, hstep msg hfail, ?_⟩⟩
  · cases hfirst : J.MarshalError (reserr.RESError K err) with
    | ok out => exact ⟨_, fun n => hok out hfirst (n + 1)⟩
    | error msg =>
      obtain ⟨out, hout⟩ := hjson msg
      exact ⟨_, hfail500 msg out hfirst hout⟩
  · simp [httpError, hfail]
  · obtain ⟨out, hout⟩ := hjson msg
    exact ⟨out, hout, hfail500 msg out hfail hout⟩

/-- The instance of C14 for a serializer that rejects the NotFound error
only: one call of `httpError` by itself, status 500. -/
theorem httpError_recursion_depth_witness :
    httpError Example.picky Example.consts 1 ResponseWriter.fresh
        (.res ⟨"system.notFound", "Not found"⟩) = .fuel ∧
      httpError Example.picky Example.consts 2 ResponseWriter.fresh
        (.res ⟨"system.notFound", "Not found"⟩) =
        httpError Example.picky Example.consts 1 ResponseWriter.fresh
          (.other "json: unsupported value") ∧
      httpError Example.picky Example.consts 2 ResponseWriter.fresh
        (.res ⟨"system.notFound", "Not found"⟩) = .ret
        { header := [contentTypeJSON]
          wroteHeader := true
          status := 500
          sentHeader := [contentTypeJSON]
          body := "\x7b\"code\":\"system.internalError\",\"message\":\"Internal error: json: unsupported value\"\x7d" } :=
  ⟨((httpError_recursion_depth Example.picky Example.consts (by decide)
      (fun _ => ⟨_, rfl⟩) ResponseWriter.fresh (.res ⟨"system.notFound", "Not found"⟩)
      rfl).2.2 "json: unsupported value" rfl).1,
    ((httpError_recursion_depth Example.picky Example.consts (by decide)
      (fun _ => ⟨_, rfl⟩) ResponseWriter.fresh (.res ⟨"system.notFound", "Not found"⟩)
      rfl).2.2 "json: unsupported value" rfl).2.1 0,
    rfl⟩

/-- The response `httpError` leaves is the one its calls on the response
writer produce, made in their order. -/
theorem httpError_replay (n : Nat) (σ : World) (err : GoError) :
    σ.onWriter (fun w => httpError J K n w err) = replay σ (httpErrorEffects J K n err) := by
  induction n generalizing err with
  | zero => rfl
  | succ n ih =>
    unfold httpError httpErrorEffects
    cases hm : J.MarshalError (reserr.RESError K err) with
    | error msg => simp only [hm]; exact ih _
    | ok out => simp only [hm]; rfl

/-- The calls of `httpError` are calls on the response writer, and there is
at least one. -/
theorem httpErrorEffects_writes (n : Nat) (err : GoError) (effs : List Effect)
    (h : httpErrorEffects J K n err = .ret effs) :
    effs ≠ [] ∧ ∀ x ∈ effs, x.isWrite = true := by
  induction n generalizing err with
  | zero => simp [httpErrorEffects] at h
  | succ n ih =>
    unfold httpErrorEffects at h
    cases hm : J.MarshalError (reserr.RESError K err) with
    | error msg => simp only [hm] at h; exact ih _ h
    | ok out =>
      simp only [hm, Run.ret.injEq] at h
      rw [← h]
      simp [Effect.isWrite]

theorem httpErrorEffects_ne_panic (n : Nat) (err : GoError) :
    httpErrorEffects J K n err ≠ .panic := by
  induction n generalizing err with
  | zero => simp [httpErrorEffects]
  | succ n ih =>
    unfold httpErrorEffects
    cases hm : J.MarshalError (reserr.RESError K err) with
    | error msg => simp only [hm]; exact ih _
    | ok out => simp [hm]

/-- C19: for every `(data, err)` delivered to the result callback, the state
it leaves is the one produced by its calls made in the order of
`rsEffects`; that sequence, whenever the callback returns, is a non-empty
sequence of calls on the response writer followed by `close(done)` and then
`c.dispose()`: each of the two is made exactly once, and after every write
of the response; the callback never panics, and it returns on each of its
exit paths: with the calls of `httpError` for an operation error and for a
serialization error, with the content type and the serialized data for a
body that is not `null`, with `WriteHeader(204)` for no content. -/
theorem rs_dispose_once (fuel : Nat) (data : Option Data) (err : Option GoError) :
    (∀ σ : World, temporaryConn.rs J K fuel data err σ =
        replay σ (temporaryConn.rsEffects J K fuel data err)) ∧
      temporaryConn.rsEffects J K fuel data err ≠ .panic ∧
      (∀ effs : List Effect, temporaryConn.rsEffects J K fuel data err = .ret effs →
        ∃ writes : List Effect, effs = writes ++ [.closeDone, .dispose] ∧ writes ≠ [] ∧
          (∀ x ∈ writes, x.isWrite = true) ∧
          effs.count .dispose = 1 ∧ effs.count .closeDone = 1) ∧
      (∀ (e : GoError) (ws : List Effect), err = some e →
        httpErrorEffects J K fuel e = .ret ws →
        temporaryConn.rsEffects J K fuel data err = .ret (ws ++ [.closeDone, .dispose])) ∧
      (∀ (d : Data) (msg : String) (ws : List Effect), err = none → data = some d →
        J.Marshal d = .error msg → httpErrorEffects J K fuel (.other msg) = .ret ws →
        temporaryConn.rsEffects J K fuel data err = .ret (ws ++ [.closeDone, .dispose])) ∧
      (∀ (d : Data) (out : String), err = none → data = some d → J.Marshal d = .ok out →
        out ≠ "null" →
        temporaryConn.rsEffects J K fuel data err = .ret
          [.Set "Content-Type" "application/json; charset=utf-8", .Write out, .closeDone,
            .dispose]) ∧
      (err = none → (data = none ∨ ∃ d, data = some d ∧ J.Marshal d = .ok "null") →
        temporaryConn.rsEffects J K fuel data err = .ret
          [.WriteHeader StatusNoContent, .closeDone, .dispose]) := by
  have hshape : ∀ ws : List Effect, ws ≠ [] → (∀ x ∈ ws, x.isWrite = true) →
      ∃ writes : List Effect,
        ws ++ [Effect.closeDone, Effect.dispose] = writes ++ [.closeDone, .dispose] ∧
          writes ≠ [] ∧ (∀ x ∈ writes, x.isWrite = true) ∧
          (ws ++ [Effect.closeDone, Effect.dispose]).count .dispose = 1 ∧
          (ws ++ [Effect.closeDone, Effect.dispose]).count .closeDone = 1 := by
    intro ws hne hall
    have hd : ws.count Effect.dispose = 0 :=
      List.count_eq_zero.mpr (fun hin => by simpa [Effect.isWrite] using hall _ hin)
    have hc : ws.count Effect.closeDone = 0 :=
      List.count_eq_zero.mpr (fun hin => by simpa [Effect.isWrite] using hall _ hin)
    refine ⟨ws, rfl, hne, hall, ?_, ?_⟩
    · simp [List.count_append, List.count_cons, hd]
    · simp [List.count_append, List.count_cons, hc]
  have hreplay : ∀ (σ : World) (r : Run (List Effect)),
      (match replay σ r with
        | .ret σ1 => Run.ret (World.mk σ1.w (σ.trace ++ [Event.closeDone, Event.dispose]))
        | .panic => .panic
        | .fuel => .fuel) =
      replay σ (match r with
        | .ret effs => .ret (effs ++ [Effect.closeDone, Effect.dispose])
        | .panic => .panic
        | .fuel => .fuel) ∨ ¬ (∀ effs, r = .ret effs → ∀ x ∈ effs, x.isWrite = true) := by
    intro σ r
    cases r with
    | panic => exact Or.inl rfl
    | fuel => exact Or.inl rfl
    | ret effs =>
      by_cases hall : ∀ x ∈ effs, x.isWrite = true
      · left
        have hfold : ∀ (l : List Effect) (σ0 : World), (∀ x ∈ l, x.isWrite = true) →
            (l.foldl Effect.apply σ0).trace = σ0.trace := by
          intro l
          induction l with
          | nil => intro σ0 _; rfl
          | cons x l ih =>
            intro σ0 hl
            rw [List.foldl_cons, ih _ (fun y hy => hl y (List.mem_cons_of_mem _ hy))]
            have hx := hl x (List.mem_cons_self _ _)
            cases x <;> simp_all [Effect.apply, Effect.isWrite]
        simp only [replay, List.foldl_append, List.foldl_cons, List.foldl_nil, Effect.apply,
          World.log, hfold effs σ hall, List.append_assoc, List.singleton_append]
      · right
        intro h
        exact hall (h effs rfl)
  have hrs : ∀ σ : World, temporaryConn.rs J K fuel data err σ =
      replay σ (temporaryConn.rsEffects J K fuel data err) := by
    intro σ
    have hhttp : ∀ e : GoError,
        (match httpError J K fuel σ.w e with
          | .ret w1 => Run.ret (World.mk w1 (σ.trace ++ [Event.closeDone, Event.dispose]))
          | .panic => .panic
          | .fuel => .fuel) =
        replay σ (match httpErrorEffects J K fuel e with
          | .ret effs => .ret (effs ++ [Effect.closeDone, Effect.dispose])
          | .panic => .panic
          | .fuel => .fuel) := by
      intro e
      have h1 := httpError_replay J K fuel σ e
      rcases hreplay σ (httpErrorEffects J K fuel e) with h2 | h2
      · rw [← h2, ← h1]
        unfold World.onWriter
        beta_reduce
        cases httpError J K fuel σ.w e <;> rfl
      · exact absurd (fun effs he => (httpErrorEffects_writes J K fuel e effs he).2) h2
    unfold temporaryConn.rs temporaryConn.rsEffects
    cases err with
    | some e => exact hhttp e
    | none =>
      cases data with
      | none =>
        simp [replay, Effect.apply, World.log]
      | some d =>
        cases hm : J.Marshal d with
        | error msg => simp only [hm]; exact hhttp (.other msg)
        | ok out =>
          by_cases hnull : out = nullBytes
          · simp [hm, hnull, replay, Effect.apply, World.log]
          · simp [hm, hnull, replay, Effect.apply, World.log]
  refine ⟨hrs, ?_, ?_, ?_, ?_, ?_, ?_⟩
  · unfold temporaryConn.rsEffects
    cases err with
    | some e =>
      have := httpErrorEffects_ne_panic J K fuel e
      cases h : httpErrorEffects J K fuel e <;> simp_all
    | none =>
      cases data with
      | none => simp
      | some d =>
        cases hm : J.Marshal d with
        | error msg =>
          have := httpErrorEffects_ne_panic J K fuel (.other msg)
          cases h : httpErrorEffects J K fuel (.other msg) <;> simp_all
        | ok out => by_cases hnull : out = nullBytes <;> simp [hm, hnull]
  · intro effs h
    unfold temporaryConn.rsEffects at h
    cases err with
    | some e =>
      cases hh : httpErrorEffects J K fuel e with
      | panic => simp [hh] at h
      | fuel => simp [hh] at h
      | ret ws =>
        simp only [hh, Run.ret.injEq] at h
        rw [← h]
        exact hshape ws (httpErrorEffects_writes J K fuel e ws hh).1
          (httpErrorEffects_writes J K fuel e ws hh).2
    | none =>
      cases data with
      | none =>
        simp only [Run.ret.injEq] at h
        rw [← h]
        exact hshape _ (by simp) (by simp [Effect.isWrite])
      | some d =>
        cases hm : J.Marshal d with
        | error msg =>
          cases hh : httpErrorEffects J K fuel (.other msg) with
          | panic => simp [hm, hh] at h
          | fuel => simp [hm, hh] at h
          | ret ws =>
            simp only [hm, hh, Run.ret.injEq] at h
            rw [← h]
            exact hshape ws (httpErrorEffects_writes J K fuel _ ws hh).1
              (httpErrorEffects_writes J K fuel _ ws hh).2
        | ok out =>
          by_cases hnull : out = nullBytes
          · simp only [hm, hnull, ne_eq, not_true_eq_false, if_false, Run.ret.injEq] at h
            rw [← h]
            exact hshape _ (by simp) (by simp [Effect.isWrite])
          · simp only [hm, hnull, ne_eq, not_false_eq_true, if_true, Run.ret.injEq] at h
            rw [← h]
            exact hshape _ (by simp) (by simp [Effect.isWrite])
  · intro e ws he hws
    simp [temporaryConn.rsEffects, he, hws]
  · intro d msg ws he hd hm hws
    simp [temporaryConn.rsEffects, he, hd, hm, hws]
  · intro d out he hd hm hne
    simp [temporaryConn.rsEffects, he, hd, hm, hne, nullBytes]
  · intro he hd
    rcases hd with hd | ⟨d, hd, hm⟩
    · simp [temporaryConn.rsEffects, he, hd]
    · simp [temporaryConn.rsEffects, he, hd, hm, nullBytes]

/-- The instance of C19 for an operation error: the three calls of
`httpError` on the response writer, then `close(done)`, then `dispose`; and
the state they leave on a trace that holds the creation of the session. -/
theorem rs_dispose_once_witness :
    temporaryConn.rsEffects Example.json Example.consts 1 none
        (some (.res ⟨"system.timeout", "Request timeout"⟩)) = .ret
      [.Set "Content-Type" "application/json; charset=utf-8", .WriteHeader 404,
        .Write "\x7b\"code\":\"system.timeout\",\"message\":\"Request timeout\"\x7d",
        .closeDone, .dispose] ∧
      temporaryConn.rs Example.json Example.consts 1 none
        (some (.res ⟨"system.timeout", "Request timeout"⟩))
        ⟨ResponseWriter.fresh, [.newWSConn, .Enqueue]⟩ = .ret
      { w :=
          { header := [contentTypeJSON]
            wroteHeader := true
            status := 404
            sentHeader := [contentTypeJSON]
            body := "\x7b\"code\":\"system.timeout\",\"message\":\"Request timeout\"\x7d" }
        trace := [.newWSConn, .Enqueue, .closeDone, .dispose] } :=
  ⟨(rs_dispose_once Example.json Example.consts 1 none
      (some (.res ⟨"system.timeout", "Request timeout"⟩))).2.2.2.1
      (.res ⟨"system.timeout", "Request timeout"⟩)
      [.Set "Content-Type" "application/json; charset=utf-8", .WriteHeader 404,
        .Write "\x7b\"code\":\"system.timeout\",\"message\":\"Request timeout\"\x7d"] rfl rfl,
    ((rs_dispose_once Example.json Example.consts 1 none
      (some (.res ⟨"system.timeout", "Request timeout"⟩))).1
      ⟨ResponseWriter.fresh, [.newWSConn, .Enqueue]⟩).trans rfl⟩

/-- The outcome of the auth call has no influence on `temporaryConn` when the
operation of the caller does not read it. -/
theorem temporaryConn_withAuthResult
    (a : String → String → Option String → Option Data × Option GoError) (fuel : Nat)
    (r : Request) (op : wsConn → Callback → World → Run World) (σ : World)
    (hop : ∀ (c : wsConn) (cb : Callback) (σ1 : World), op (c.withAuthResult a) cb σ1 = op c cb σ1) :
    temporaryConn J K (S.withAuthResult a) fuel r op σ = temporaryConn J K S fuel r op σ := by
  unfold temporaryConn
  cases hc : S.newWSConn r with
  | none => simp [Service.withAuthResult, hc]
  | some c =>
    simp only [Service.withAuthResult, hc, Option.map_some', wsConn.AuthResource, hop]

/-- C12: with header authentication configured and a session, `temporaryConn`
records the auth call and then runs the operation of the caller, once, in
the continuation of the auth call, with the result callback `rs`; the
outcome of the auth call is not read: for every outcome `a` of the auth call
the handler gives the same result, response and trace, as for the outcome
the connection reports. -/
theorem temporaryConn_auth_passthrough (fuel : Nat) (r : Request) (c : wsConn)
    (hauth : S.cfg.HeaderAuth.isSome = true) (hc : S.newWSConn r = some c) :
    (∀ (op : wsConn → Callback → World → Run World) (σ : World),
        temporaryConn J K S fuel r op σ =
          op c (temporaryConn.rs J K fuel)
            ⟨σ.w, σ.trace ++ [.newWSConn, .Enqueue,
              .AuthResource S.cfg.headerAuthRID S.cfg.headerAuthAction]⟩) ∧
      ∀ (a : String → String → Option String → Option Data × Option GoError)
        (notFoundBytes : String) (σ : World),
        apiHandler J K H (S.withAuthResult a) notFoundBytes fuel r σ =
          apiHandler J K H S notFoundBytes fuel r σ := by
  refine ⟨fun op σ => ?_, fun a notFoundBytes σ => ?_⟩
  · rw [temporaryConn_some J K S fuel r op σ c hc]
    simp [authEvents, hauth]
  · unfold apiHandler
    have hget : ∀ rid, temporaryConn J K (S.withAuthResult a) fuel r
        (apiHandler.get J K (S.withAuthResult a) fuel rid) σ =
        temporaryConn J K S fuel r (apiHandler.get J K S fuel rid) σ := fun rid =>
      temporaryConn_withAuthResult J K S a fuel r _ σ (fun _ _ _ => rfl)
    have hpost : ∀ rid action params, temporaryConn J K (S.withAuthResult a) fuel r
        (apiHandler.post (S.withAuthResult a) rid action params) σ =
        temporaryConn J K S fuel r (apiHandler.post S rid action params) σ :=
      fun rid action params =>
        temporaryConn_withAuthResult J K S a fuel r _ σ (fun _ _ _ => rfl)
    simp only [hget, hpost]
    rfl

/-- The instance of C12 for a call on a connection whose auth call is denied:
the call is made all the same, after the auth call, and the response is the
one obtained when the auth call succeeds. -/
theorem temporaryConn_auth_passthrough_witness :
    (Example.serviceAuth Example.conn).cfg.HeaderAuth.isSome = true ∧
      apiHandler Example.json Example.consts Example.httpapi
        ((Example.serviceAuth Example.conn).withAuthResult (fun _ _ _ => (none, none)))
        Example.notFoundBytes 1 (Example.request "POST" "/api/todos.7/delete" "") World.start =
        apiHandler Example.json Example.consts Example.httpapi
          (Example.serviceAuth Example.conn) Example.notFoundBytes 1
          (Example.request "POST" "/api/todos.7/delete" "") World.start ∧
      apiHandler Example.json Example.consts Example.httpapi
        (Example.serviceAuth Example.conn) Example.notFoundBytes 1
        (Example.request "POST" "/api/todos.7/delete" "") World.start = .ret
        { w := ⟨[], true, 204, [], ""⟩
          trace := [.newWSConn, .Enqueue, .AuthResource "auth" "login",
            .CallResource "todos.7" "delete" none, .closeDone, .dispose] } :=
  ⟨rfl,
    (temporaryConn_auth_passthrough Example.json Example.consts Example.httpapi
      (Example.serviceAuth Example.conn) 1 (Example.request "POST" "/api/todos.7/delete" "")
      Example.conn rfl rfl).2 (fun _ _ _ => (none, none)) Example.notFoundBytes World.start,
    rfl⟩

end Session

/-! ## Theorems: the rendering of collections and models -/

section Rendering

open encoderJSONFlat

variable (J : Json) (K : reserr.Consts)

theorem shift_shift (b c : String) (r : Run (encoderJSONFlat × Option String)) :
    Spec.shift b (Spec.shift c r) = Spec.shift (b ++ c) r := by
  cases r with
  | ret x => obtain ⟨e1, o⟩ := x; simp [Spec.shift, String.append_assoc]
  | panic => rfl
  | fuel => rfl

/-- Bytes already in the buffer do not influence the collection loop. -/
theorem rangeCollection_shift
    (enc : encoderJSONFlat → Subscription → Run (encoderJSONFlat × Option String))
    (Ref : String → Option Subscription)
    (henc : ∀ (b c : String) (p : List String) (sc : Subscription),
      enc ⟨b ++ c, p⟩ sc = Spec.shift b (enc ⟨c, p⟩ sc))
    (vals : List codec.Value) :
    ∀ (i : Nat) (b c : String) (p : List String),
      rangeCollection enc Ref i vals ⟨b ++ c, p⟩ =
        Spec.shift b (rangeCollection enc Ref i vals ⟨c, p⟩) := by
  induction vals with
  | nil => intro i b c p; rfl
  | cons v vals ih =>
    intro i b c p
    have hcomma : (if i > 0 then encoderJSONFlat.WriteByte ⟨b ++ c, p⟩ ',' else ⟨b ++ c, p⟩) =
        ⟨b ++ (if i > 0 then c ++ "," else c), p⟩ := by
      split
      · simp [encoderJSONFlat.WriteByte, String.append_assoc]; rfl
      · rfl
    have hcomma2 : (if i > 0 then encoderJSONFlat.WriteByte ⟨c, p⟩ ',' else ⟨c, p⟩) =
        ⟨(if i > 0 then c ++ "," else c), p⟩ := by
      split
      · simp [encoderJSONFlat.WriteByte]; rfl
      · rfl
    unfold rangeCollection
    rw [hcomma, hcomma2]
    by_cases hv : v.Type_ = codec.ValueType.ValueTypeResource
    · simp only [hv, if_true]
      cases Ref v.RID with
      | none => rfl
      | some sc =>
        simp only []
        rw [henc b]
        generalize enc ⟨(if i > 0 then c ++ "," else c), p⟩ sc = r
        cases r with
        | panic => rfl
        | fuel => rfl
        | ret x =>
          obtain ⟨e2, o⟩ := x
          cases o with
          | none => exact ih (i + 1) b e2.b e2.path
          | some err => rfl
    · simp only [hv, if_false, encoderJSONFlat.Write, String.append_assoc]
      exact ih (i + 1) b _ p

/-- Bytes already in the buffer do not influence the model loop. -/
theorem rangeModel_shift
    (enc : encoderJSONFlat → Subscription → Run (encoderJSONFlat × Option String))
    (Ref : String → Option Subscription)
    (henc : ∀ (b c : String) (p : List String) (sc : Subscription),
      enc ⟨b ++ c, p⟩ sc = Spec.shift b (enc ⟨c, p⟩ sc))
    (vals : List (String × codec.Value)) :
    ∀ (first : Bool) (b c : String) (p : List String),
      rangeModel J enc Ref first vals ⟨b ++ c, p⟩ =
        Spec.shift b (rangeModel J enc Ref first vals ⟨c, p⟩) := by
  induction vals with
  | nil => intro first b c p; rfl
  | cons kv vals ih =>
    obtain ⟨k, v⟩ := kv
    intro first b c p
    have hcomma : (if (!first) = true then encoderJSONFlat.WriteByte ⟨b ++ c, p⟩ ','
        else ⟨b ++ c, p⟩) = ⟨b ++ (if (!first) = true then c ++ "," else c), p⟩ := by
      split
      · simp [encoderJSONFlat.WriteByte, String.append_assoc]; rfl
      · rfl
    have hcomma2 : (if (!first) = true then encoderJSONFlat.WriteByte ⟨c, p⟩ ','
        else ⟨c, p⟩) = ⟨(if (!first) = true then c ++ "," else c), p⟩ := by
      split
      · simp [encoderJSONFlat.WriteByte]; rfl
      · rfl
    unfold rangeModel
    rw [hcomma, hcomma2]
    cases J.MarshalString k with
    | error msg => rfl
    | ok dta =>
      by_cases hv : v.Type_ = codec.ValueType.ValueTypeResource
      · simp only [hv, if_true]
        cases Ref v.RID with
        | none => rfl
        | some sc =>
          simp only [encoderJSONFlat.Write, encoderJSONFlat.WriteByte, String.append_assoc]
          rw [henc b]
          generalize enc ⟨(if (!first) = true then c ++ "," else c) ++
            (dta ++ String.singleton ':'), p⟩ sc = r
          cases r with
          | panic => rfl
          | fuel => rfl
          | ret x =>
            obtain ⟨e2, o⟩ := x
            cases o with
            | none => exact ih false b e2.b e2.path
            | some err => rfl
      · simp only [hv, if_false, encoderJSONFlat.Write, encoderJSONFlat.WriteByte,
          String.append_assoc]
        exact ih false b _ p

theorem shift_close (b : String) (ch : Char)
    (r : Run (encoderJSONFlat × Option String)) :
    (match Spec.shift b r with
      | .ret (e2, none) => Run.ret (encoderJSONFlat.WriteByte e2 ch, (none : Option String))
      | r1 => r1) =
      Spec.shift b (match r with
        | .ret (e2, none) => Run.ret (encoderJSONFlat.WriteByte e2 ch, (none : Option String))
        | r1 => r1) := by
  cases r with
  | panic => rfl
  | fuel => rfl
  | ret x =>
    obtain ⟨e2, o⟩ := x
    cases o with
    | none => simp [Spec.shift, encoderJSONFlat.WriteByte, String.append_assoc]
    | some err => rfl

/-- Bytes already in the buffer do not influence `encodeSubscription`: they
stay in front of what it writes. -/
theorem encodeSubscription_shift (Ref : Subscription → String → Option Subscription) :
    ∀ (n : Nat) (b c : String) (p : List String) (s : Subscription),
      encodeSubscription J K Ref n ⟨b ++ c, p⟩ s =
        Spec.shift b (encodeSubscription J K Ref n ⟨c, p⟩ s) := by
  intro n
  induction n with
  | zero => intro b c p s; rfl
  | succ n ih =>
    intro b c p s
    unfold encodeSubscription
    by_cases hc : containsString p s.RID = true
    · simp only [hc, if_true]
      cases J.MarshalString s.RID with
      | error msg => simp [Spec.shift, encoderJSONFlat.Write, String.append_assoc]
      | ok dta =>
        simp [Spec.shift, encoderJSONFlat.Write, encoderJSONFlat.WriteByte,
          String.append_assoc]
    · simp only [hc, Bool.false_eq_true, if_false]
      cases s.Error with
      | some err =>
        simp only
        cases J.MarshalError (reserr.RESError K err) with
        | error msg => rfl
        | ok dta => simp [Spec.shift, encoderJSONFlat.Write, String.append_assoc]
      | none =>
        simp only
        cases s.ResourceType with
        | TypeOther => rfl
        | TypeCollection =>
          simp only [encoderJSONFlat.WriteByte, String.append_assoc]
          rw [rangeCollection_shift _ (Ref s) ih s.CollectionValues 0 b _ (p ++ [s.rid])]
          exact shift_close b ']' _
        | TypeModel =>
          simp only [encoderJSONFlat.WriteByte, String.append_assoc]
          rw [rangeModel_shift J _ (Ref s) ih s.ModelValues true b _ (p ++ [s.rid])]
          exact shift_close b '\x7d' _

/-- The flattening of the specification describes what the nested call
writes behind the bytes already in the buffer. -/
theorem flatten_spec (Ref : Subscription → String → Option Subscription) (n : Nat)
    (b : String) (p p1 : List String) (sc : Subscription) (d : String)
    (h : Spec.flatten J K Ref n p sc = some (d, p1)) :
    encodeSubscription J K Ref n ⟨b, p⟩ sc = .ret (⟨b ++ d, p1⟩, none) := by
  have hs := encodeSubscription_shift J K Ref n b "" p sc
  rw [String.append_empty] at hs
  rw [hs]
  unfold Spec.flatten at h
  cases hr : encodeSubscription J K Ref n ⟨"", p⟩ sc with
  | panic => simp [hr] at h
  | fuel => simp [hr] at h
  | ret x =>
    obtain ⟨e1, o⟩ := x
    cases o with
    | some err => simp [hr] at h
    | none =>
      simp only [hr, Option.some.injEq, Prod.mk.injEq] at h
      simp [Spec.shift, h.1, h.2]

theorem commaSep_cons (d : String) (ds : List String) :
    Spec.commaSep (d :: ds) = d ++ Spec.commaEach ds := by
  induction ds generalizing d with
  | nil => simp [Spec.commaSep, Spec.commaEach]
  | cons d1 ds ih =>
    rw [Spec.commaSep, ih d1]
    · simp [Spec.commaEach, String.append_assoc]
    · simp

/-- The collection loop writes the renderings of the specification: from
index 0 separated by single commas, from a later index each after a comma. -/
theorem rangeCollection_renderings
    (enc : encoderJSONFlat → Subscription → Run (encoderJSONFlat × Option String))
    (flat : List String → Subscription → Option (String × List String))
    (Ref : String → Option Subscription)
    (henc : ∀ (b : String) (p p1 : List String) (sc : Subscription) (d : String),
      flat p sc = some (d, p1) → enc ⟨b, p⟩ sc = .ret (⟨b ++ d, p1⟩, none))
    (vals : List codec.Value) :
    ∀ (i : Nat) (b : String) (p p2 : List String) (ds : List String),
      Spec.renderings flat Ref vals p = some (ds, p2) →
      ds.length = vals.length ∧
        rangeCollection enc Ref (i + 1) vals ⟨b, p⟩ =
          .ret (⟨b ++ Spec.commaEach ds, p2⟩, none) ∧
        rangeCollection enc Ref 0 vals ⟨b, p⟩ = .ret (⟨b ++ Spec.commaSep ds, p2⟩, none) := by
  induction vals with
  | nil =>
    intro i b p p2 ds h
    simp only [Spec.renderings, Option.some.injEq, Prod.mk.injEq] at h
    obtain ⟨h1, h2⟩ := h
    subst h1 h2
    simp [rangeCollection, Spec.commaSep, Spec.commaEach]
  | cons v vals ih =>
    intro i b p p2 ds h
    unfold Spec.renderings at h
    by_cases hv : v.Type_ = codec.ValueType.ValueTypeResource
    · simp only [hv, if_true] at h
      cases href : Ref v.RID with
      | none => simp [href] at h
      | some sc =>
        simp only [href] at h
        cases hflat : flat p sc with
        | none => simp [hflat] at h
        | some x =>
          obtain ⟨d, p1⟩ := x
          simp only [hflat] at h
          cases hrest : Spec.renderings flat Ref vals p1 with
          | none => simp [hrest] at h
          | some y =>
            obtain ⟨ds1, p3⟩ := y
            simp only [hrest, Option.some.injEq, Prod.mk.injEq] at h
            obtain ⟨h1, h2⟩ := h
            subst h1 h2
            refine ⟨by simp [(ih 0 b p1 p3 ds1 hrest).1], ?_, ?_⟩
            · unfold rangeCollection
              simp only [hv, if_true, href, Nat.succ_pos, encoderJSONFlat.WriteByte,
                henc _ p p1 sc d hflat]
              rw [(ih (i + 1) _ p1 p3 ds1 hrest).2.1]
              simp [Spec.commaEach, String.append_assoc]
              rfl
            · unfold rangeCollection
              simp only [hv, if_true, href, Nat.lt_irrefl, if_false, henc _ p p1 sc d hflat]
              rw [(ih 0 _ p1 p3 ds1 hrest).2.1, commaSep_cons]
              simp [String.append_assoc]
    · simp only [hv, if_false] at h
      cases hrest : Spec.renderings flat Ref vals p with
      | none => simp [hrest] at h
      | some y =>
        obtain ⟨ds1, p3⟩ := y
        simp only [hrest, Option.some.injEq, Prod.mk.injEq] at h
        obtain ⟨h1, h2⟩ := h
        subst h1 h2
        refine ⟨by simp [(ih 0 b p p3 ds1 hrest).1], ?_, ?_⟩
        · unfold rangeCollection
          simp only [hv, if_false, Nat.succ_pos, if_true, encoderJSONFlat.WriteByte,
            encoderJSONFlat.Write]
          rw [(ih (i + 1) _ p p3 ds1 hrest).2.1]
          simp [Spec.commaEach, String.append_assoc]
          rfl
        · unfold rangeCollection
          simp only [hv, if_false, Nat.lt_irrefl, encoderJSONFlat.Write]
          rw [(ih 0 _ p p3 ds1 hrest).2.1, commaSep_cons]
          simp [String.append_assoc]

/-- The model loop writes the fields of the specification: with the flag
`first` set separated by single commas, without it each after a comma. -/
theorem rangeModel_fields
    (enc : encoderJSONFlat → Subscription → Run (encoderJSONFlat × Option String))
    (flat : List String → Subscription → Option (String × List String))
    (Ref : String → Option Subscription)
    (henc : ∀ (b : String) (p p1 : List String) (sc : Subscription) (d : String),
      flat p sc = some (d, p1) → enc ⟨b, p⟩ sc = .ret (⟨b ++ d, p1⟩, none))
    (vals : List (String × codec.Value)) :
    ∀ (b : String) (p p2 : List String) (fs : List String),
      Spec.fields J flat Ref vals p = some (fs, p2) →
      fs.length = vals.length ∧
        rangeModel J enc Ref false vals ⟨b, p⟩ = .ret (⟨b ++ Spec.commaEach fs, p2⟩, none) ∧
        rangeModel J enc Ref true vals ⟨b, p⟩ = .ret (⟨b ++ Spec.commaSep fs, p2⟩, none) := by
  induction vals with
  | nil =>
    intro b p p2 fs h
    simp only [Spec.fields, Option.some.injEq, Prod.mk.injEq] at h
    obtain ⟨h1, h2⟩ := h
    subst h1 h2
    simp [rangeModel, Spec.commaSep, Spec.commaEach]
  | cons kv vals ih =>
    obtain ⟨k, v⟩ := kv
    intro b p p2 fs h
    unfold Spec.fields at h
    cases hk : J.MarshalString k with
    | error msg => simp [hk] at h
    | ok dta =>
      simp only [hk] at h
      by_cases hv : v.Type_ = codec.ValueType.ValueTypeResource
      · simp only [hv, if_true] at h
        cases href : Ref v.RID with
        | none => simp [href] at h
        | some sc =>
          simp only [href] at h
          cases hflat : flat p sc with
          | none => simp [hflat] at h
          | some x =>
            obtain ⟨d, p1⟩ := x
            simp only [hflat] at h
            cases hrest : Spec.fields J flat Ref vals p1 with
            | none => simp [hrest] at h
            | some y =>
              obtain ⟨fs1, p3⟩ := y
              simp only [hrest, Option.some.injEq, Prod.mk.injEq] at h
              obtain ⟨h1, h2⟩ := h
              subst h1 h2
              refine ⟨by simp [(ih b p1 p3 fs1 hrest).1], ?_, ?_⟩
              · unfold rangeModel
                simp only [hk, hv, if_true, href, Bool.not_false, encoderJSONFlat.WriteByte,
                  encoderJSONFlat.Write, henc _ p p1 sc d hflat]
                rw [(ih _ p1 p3 fs1 hrest).2.1]
                simp [Spec.commaEach, String.append_assoc]
                rfl
              · unfold rangeModel
                simp only [hk, hv, if_true, href, Bool.not_true, Bool.false_eq_true, if_false,
                  encoderJSONFlat.WriteByte, encoderJSONFlat.Write, henc _ p p1 sc d hflat]
                rw [(ih _ p1 p3 fs1 hrest).2.1, commaSep_cons]
                simp [String.append_assoc]
                rfl
      · simp only [hv, if_false] at h
        cases hrest : Spec.fields J flat Ref vals p with
        | none => simp [hrest] at h
        | some y =>
          obtain ⟨fs1, p3⟩ := y
          simp only [hrest, Option.some.injEq, Prod.mk.injEq] at h
          obtain ⟨h1, h2⟩ := h
          subst h1 h2
          refine ⟨by simp [(ih b p p3 fs1 hrest).1], ?_, ?_⟩
          · unfold rangeModel
            simp only [hk, hv, if_false, Bool.not_false, if_true, encoderJSONFlat.WriteByte,
              encoderJSONFlat.Write]
            rw [(ih _ p p3 fs1 hrest).2.1]
            simp [Spec.commaEach, String.append_assoc]
            rfl
          · unfold rangeModel
            simp only [hk, hv, if_false, Bool.not_true, Bool.false_eq_true,
              encoderJSONFlat.WriteByte, encoderJSONFlat.Write]
            rw [(ih _ p p3 fs1 hrest).2.1, commaSep_cons]
            simp [String.append_assoc]
            rfl

/-- In the renderings of the specification a value that is no reference
stands, at its own position, as its raw bytes. -/
theorem renderings_raw (flat : List String → Subscription → Option (String × List String))
    (Ref : String → Option Subscription) (vals : List codec.Value) :
    ∀ (p p2 : List String) (ds : List String),
      Spec.renderings flat Ref vals p = some (ds, p2) →
      ∀ (i : Nat) (v : codec.Value), vals[i]? = some v →
        v.Type_ ≠ codec.ValueType.ValueTypeResource → ds[i]? = some v.RawMessage := by
  induction vals with
  | nil => intro p p2 ds _ i v hi; simp at hi
  | cons v0 vals ih =>
    intro p p2 ds h i v hi hv
    unfold Spec.renderings at h
    by_cases hv0 : v0.Type_ = codec.ValueType.ValueTypeResource
    · simp only [hv0, if_true] at h
      cases href : Ref v0.RID with
      | none => simp [href] at h
      | some sc =>
        simp only [href] at h
        cases hflat : flat p sc with
        | none => simp [hflat] at h
        | some x =>
          obtain ⟨d, p1⟩ := x
          simp only [hflat] at h
          cases hrest : Spec.renderings flat Ref vals p1 with
          | none => simp [hrest] at h
          | some y =>
            obtain ⟨ds1, p3⟩ := y
            simp only [hrest, Option.some.injEq, Prod.mk.injEq] at h
            obtain ⟨h1, _⟩ := h
            subst h1
            cases i with
            | zero =>
              simp only [List.getElem?_cons_zero, Option.some.injEq] at hi
              exact absurd (hi ▸ hv0) hv
            | succ j =>
              simp only [List.getElem?_cons_succ] at hi ⊢
              exact ih p1 p3 ds1 hrest j v hi hv
    · simp only [hv0, if_false] at h
      cases hrest : Spec.renderings flat Ref vals p with
      | none => simp [hrest] at h
      | some y =>
        obtain ⟨ds1, p3⟩ := y
        simp only [hrest, Option.some.injEq, Prod.mk.injEq] at h
        obtain ⟨h1, _⟩ := h
        subst h1
        cases i with
        | zero =>
          simp only [List.getElem?_cons_zero, Option.some.injEq] at hi ⊢
          rw [hi]
        | succ j =>
          simp only [List.getElem?_cons_succ] at hi ⊢
          exact ih p p3 ds1 hrest j v hi hv

/-- C16: a collection subscription without error whose RID is not on the path
of the encoder is written as `[`, the renderings of its values `v1..vn` in
that order separated by single commas, and `]`; there is one rendering for
each value, the rendering of a value that is no reference is its raw bytes,
the rendering of a reference is the flattening of the subscription looked up
by its RID (`Spec.renderings`); an empty collection is written as `[]`. -/
theorem encodeSubscription_collection (Ref : Subscription → String → Option Subscription)
    (n : Nat) (e : encoderJSONFlat) (s : Subscription) (ds : List String) (p : List String)
    (hpath : s.RID ∉ e.path) (herr : s.Error = none)
    (ht : s.ResourceType = .TypeCollection)
    (hr : Spec.renderings (Spec.flatten J K Ref n) (Ref s) s.CollectionValues
      (e.path ++ [s.rid]) = some (ds, p)) :
    encodeSubscription J K Ref (n + 1) e s =
        .ret (⟨e.b ++ "[" ++ Spec.commaSep ds ++ "]", p⟩, none) ∧
      ds.length = s.CollectionValues.length ∧
      (∀ (i : Nat) (v : codec.Value), s.CollectionValues[i]? = some v →
        v.Type_ ≠ codec.ValueType.ValueTypeResource → ds[i]? = some v.RawMessage) ∧
      (s.CollectionValues = [] →
        encodeSubscription J K Ref (n + 1) e s = .ret (⟨e.b ++ "[]", e.path ++ [s.rid]⟩, none)) := by
  have hloop := rangeCollection_renderings
    (fun e2 sc => encodeSubscription J K Ref n e2 sc) (Spec.flatten J K Ref n) (Ref s)
    (fun b p0 p1 sc d h => flatten_spec J K Ref n b p0 p1 sc d h) s.CollectionValues 0
    (e.b ++ "[") (e.path ++ [s.rid]) p ds hr
  have hnot : containsString e.path s.RID = false := by
    simpa [containsString] using hpath
  have hmain : encodeSubscription J K Ref (n + 1) e s =
      .ret (⟨e.b ++ "[" ++ Spec.commaSep ds ++ "]", p⟩, none) := by
    unfold encodeSubscription
    simp only [hnot, Bool.false_eq_true, if_false, herr, ht, encoderJSONFlat.WriteByte]
    have h0 := hloop.2.2
    simp only [String.append_assoc] at h0 ⊢
    rw [show String.singleton '[' = "[" from rfl, h0]
    simp only [String.append_assoc]
    rfl
  refine ⟨hmain, hloop.1, renderings_raw _ _ _ _ _ _ hr, fun hempty => ?_⟩
  rw [hmain]
  rw [hempty] at hr
  simp only [Spec.renderings, Option.some.injEq, Prod.mk.injEq] at hr
  obtain ⟨h1, h2⟩ := hr
  subst h1 h2
  simp [Spec.commaSep, String.append_assoc]

/-- The instance of C16 for a collection of a number, a reference to the
model D and a string. -/
theorem encodeSubscription_collection_witness :
    encodeSubscription Example.json Example.consts (Example.lookup Example.diamond) 2
        ⟨"", []⟩
        (Example.collection "L" [Example.prim "1", Example.ref "D", Example.prim "\"x\""]) =
      .ret (⟨"[1,\x7b\"x\":1\x7d,\"x\"]", ["L", "D"]⟩, none) :=
  (encodeSubscription_collection Example.json Example.consts (Example.lookup Example.diamond)
    1 ⟨"", []⟩
    (Example.collection "L" [Example.prim "1", Example.ref "D", Example.prim "\"x\""])
    ["1", "\x7b\"x\":1\x7d", "\"x\""] ["L", "D"] (by decide) rfl rfl rfl).1

/-- C17 as stated fails: the fields of a model are written in the order in
which `range` visits the map, which the data does not fix; for the model
with the fields a and b the two orders of visit, over the same entries, give
different bytes. -/
theorem encode_model_order_differs :
    List.Perm [("a", Example.prim "1"), ("b", Example.prim "2")]
        [("b", Example.prim "2"), ("a", Example.prim "1")] ∧
      Encode Example.json Example.consts (Example.lookup []) 1 ⟨"", []⟩
        (Example.model "M" [("a", Example.prim "1"), ("b", Example.prim "2")]) =
        .ret ("\x7b\"a\":1,\"b\":2\x7d", none) ∧
      Encode Example.json Example.consts (Example.lookup []) 1 ⟨"", []⟩
        (Example.model "M" [("b", Example.prim "2"), ("a", Example.prim "1")]) =
        .ret ("\x7b\"b\":2,\"a\":1\x7d", none) ∧
      Encode Example.json Example.consts (Example.lookup []) 1 ⟨"", []⟩
        (Example.model "M" [("a", Example.prim "1"), ("b", Example.prim "2")]) ≠
      Encode Example.json Example.consts (Example.lookup []) 1 ⟨"", []⟩
        (Example.model "M" [("b", Example.prim "2"), ("a", Example.prim "1")]) :=
  ⟨List.Perm.swap _ _ _, rfl, rfl, by decide⟩

/-- C17, amended: a model subscription without error whose RID is not on the
path is written as an object whose fields appear in the order in which the
entries are visited (`s.ModelValues`), separated by single commas, each as
the JSON string of its key, a colon and the rendering of its value; the
result is a function of the data and of that order: a run over the same
entries visited in the same order, with the same lookup, gives the same
result. -/
theorem encodeSubscription_model_order (Ref : Subscription → String → Option Subscription)
    (n : Nat) (e : encoderJSONFlat) (s : Subscription) (fs : List String) (p : List String)
    (hpath : s.RID ∉ e.path) (herr : s.Error = none) (ht : s.ResourceType = .TypeModel)
    (hf : Spec.fields J (Spec.flatten J K Ref n) (Ref s) s.ModelValues (e.path ++ [s.rid]) =
      some (fs, p)) :
    encodeSubscription J K Ref (n + 1) e s =
        .ret (⟨e.b ++ "\x7b" ++ Spec.commaSep fs ++ "\x7d", p⟩, none) ∧
      fs.length = s.ModelValues.length ∧
      ∀ s2 : Subscription, s2.rid = s.rid → s2.Error = s.Error →
        s2.ResourceType = s.ResourceType → s2.ModelValues = s.ModelValues → Ref s2 = Ref s →
        encodeSubscription J K Ref (n + 1) e s2 = encodeSubscription J K Ref (n + 1) e s := by
  have hloop := rangeModel_fields J
    (fun e2 sc => encodeSubscription J K Ref n e2 sc) (Spec.flatten J K Ref n) (Ref s)
    (fun b p0 p1 sc d h => flatten_spec J K Ref n b p0 p1 sc d h) s.ModelValues
    (e.b ++ "\x7b") (e.path ++ [s.rid]) p fs hf
  have hnot : containsString e.path s.RID = false := by
    simpa [containsString] using hpath
  refine ⟨?_, hloop.1, ?_⟩
  · unfold encodeSubscription
    simp only [hnot, Bool.false_eq_true, if_false, herr, ht, encoderJSONFlat.WriteByte]
    have h0 := hloop.2.2
    simp only [String.append_assoc] at h0 ⊢
    rw [show String.singleton '\x7b' = "\x7b" from rfl, h0]
    simp only [String.append_assoc]
    rfl
  · intro s2 hrid herr2 ht2 hvals href
    have hnot2 : containsString e.path s2.RID = false := by
      simpa [containsString, Subscription.RID, hrid] using hpath
    unfold encodeSubscription
    simp only [hnot, hnot2, Bool.false_eq_true, if_false, herr, herr2, ht, ht2, hrid, hvals,
      href]

/-- The instance of amended C17 for the model with the fields a and b,
visited in that order. -/
theorem encodeSubscription_model_order_witness :
    encodeSubscription Example.json Example.consts (Example.lookup []) 1 ⟨"", []⟩
        (Example.model "M" [("a", Example.prim "1"), ("b", Example.prim "2")]) =
      .ret (⟨"\x7b\"a\":1,\"b\":2\x7d", ["M"]⟩, none) :=
  (encodeSubscription_model_order Example.json Example.consts (Example.lookup []) 0 ⟨"", []⟩
    (Example.model "M" [("a", Example.prim "1"), ("b", Example.prim "2")])
    ["\"a\":1", "\"b\":2"] ["M"] (by decide) rfl rfl rfl).1

end Rendering

/-! ## Theorems: the path of the encoder -/

section Path

open encoderJSONFlat

variable (J : Json) (K : reserr.Consts)

theorem Extends.refl (G : Subscription → Prop) (p : List String) : Extends G p p :=
  ⟨[], by simp, List.nodup_nil, by simp, by simp⟩

theorem Extends.trans (G : Subscription → Prop) (p p1 p2 : List String)
    (h1 : Extends G p p1) (h2 : Extends G p1 p2) : Extends G p p2 := by
  obtain ⟨x1, rfl, hn1, hd1, hg1⟩ := h1
  obtain ⟨x2, rfl, hn2, hd2, hg2⟩ := h2
  refine ⟨x1 ++ x2, by simp, ?_, ?_, ?_⟩
  · rw [List.nodup_append]
    refine ⟨hn1, hn2, ?_⟩
    intro r hr1 hr2
    exact hd2 r hr2 (List.mem_append_right _ hr1)
  · intro r hr
    rcases List.mem_append.mp hr with hr | hr
    · exact hd1 r hr
    · exact fun hp => hd2 r hr (List.mem_append_left _ hp)
  · intro r hr
    rcases List.mem_append.mp hr with hr | hr
    · exact hg1 r hr
    · exact hg2 r hr

/-- The collection loop only extends the path, by new RIDs. -/
theorem rangeCollection_extends (G : Subscription → Prop)
    (enc : encoderJSONFlat → Subscription → Run (encoderJSONFlat × Option String))
    (Ref : String → Option Subscription)
    (henc : ∀ e sc r, G sc → enc e sc = .ret r → Extends G e.path r.1.path)
    (vals : List codec.Value)
    (hvals : ∀ v ∈ vals, v.Type_ = codec.ValueType.ValueTypeResource →
      ∀ sc, Ref v.RID = some sc → G sc) :
    ∀ (i : Nat) (e : encoderJSONFlat) (r : encoderJSONFlat × Option String),
      rangeCollection enc Ref i vals e = .ret r → Extends G e.path r.1.path := by
  induction vals with
  | nil =>
    intro i e r h
    simp only [rangeCollection, Run.ret.injEq] at h
    rw [← h]
    exact Extends.refl G _
  | cons v vals ih =>
    intro i e r h
    have ih1 := ih (fun v1 hv1 => hvals v1 (List.mem_cons_of_mem _ hv1))
    unfold rangeCollection at h
    generalize hg : (if i > 0 then e.WriteByte ',' else e) = e0 at h
    have hp0 : e0.path = e.path := by
      rw [← hg]; split <;> rfl
    by_cases hv : v.Type_ = codec.ValueType.ValueTypeResource
    · simp only [hv, if_true] at h
      cases href : Ref v.RID with
      | none => simp [href] at h
      | some sc =>
        simp only [href] at h
        cases hcall : enc e0 sc with
        | panic => simp [hcall] at h
        | fuel => simp [hcall] at h
        | ret x =>
          obtain ⟨e2, o⟩ := x
          have h2 := henc e0 sc _ (hvals v (List.mem_cons_self _ _) hv sc href) hcall
          rw [hp0] at h2
          rw [hcall] at h
          cases o with
          | none => exact Extends.trans G _ _ _ h2 (ih1 _ _ _ h)
          | some err =>
            simp only [Run.ret.injEq] at h
            rw [← h]
            exact h2
    · simp only [hv, if_false] at h
      have h3 := ih1 _ _ _ h
      have hp1 : (e0.Write v.RawMessage).path = e.path := hp0
      rw [hp1] at h3
      exact h3

/-- The model loop only extends the path, by new RIDs. -/
theorem rangeModel_extends (G : Subscription → Prop)
    (enc : encoderJSONFlat → Subscription → Run (encoderJSONFlat × Option String))
    (Ref : String → Option Subscription)
    (henc : ∀ e sc r, G sc → enc e sc = .ret r → Extends G e.path r.1.path)
    (vals : List (String × codec.Value))
    (hvals : ∀ kv ∈ vals, kv.2.Type_ = codec.ValueType.ValueTypeResource →
      ∀ sc, Ref kv.2.RID = some sc → G sc) :
    ∀ (first : Bool) (e : encoderJSONFlat) (r : encoderJSONFlat × Option String),
      rangeModel J enc Ref first vals e = .ret r → Extends G e.path r.1.path := by
  induction vals with
  | nil =>
    intro first e r h
    simp only [rangeModel, Run.ret.injEq] at h
    rw [← h]
    exact Extends.refl G _
  | cons kv vals ih =>
    obtain ⟨k, v⟩ := kv
    intro first e r h
    have ih1 := ih (fun v1 hv1 => hvals v1 (List.mem_cons_of_mem _ hv1))
    unfold rangeModel at h
    generalize hg : (if (!first) = true then e.WriteByte ',' else e) = e0 at h
    have hp0 : e0.path = e.path := by
      rw [← hg]; split <;> rfl
    cases hk : J.MarshalString k with
    | error msg =>
      simp only [hk, Run.ret.injEq] at h
      rw [← h, hp0]
      exact Extends.refl G _
    | ok dta =>
      simp only [hk] at h
      have hp1 : ((e0.Write dta).WriteByte ':').path = e.path := hp0
      by_cases hv : v.Type_ = codec.ValueType.ValueTypeResource
      · simp only [hv, if_true] at h
        cases href : Ref v.RID with
        | none => simp [href] at h
        | some sc =>
          simp only [href] at h
          cases hcall : enc ((e0.Write dta).WriteByte ':') sc with
          | panic => simp [hcall] at h
          | fuel => simp [hcall] at h
          | ret x =>
            obtain ⟨e2, o⟩ := x
            have h2 := henc _ sc _ (hvals (k, v) (List.mem_cons_self _ _) hv sc href) hcall
            rw [hp1] at h2
            rw [hcall] at h
            cases o with
            | none => exact Extends.trans G _ _ _ h2 (ih1 _ _ _ h)
            | some err =>
              simp only [Run.ret.injEq] at h
              rw [← h]
              exact h2
      · simp only [hv, if_false] at h
        have h3 := ih1 _ _ _ h
        have hp2 : (((e0.Write dta).WriteByte ':').Write v.RawMessage).path = e.path := hp0
        rw [hp2] at h3
        exact h3

/-- A call of `encodeSubscription` only extends the path, by new RIDs; and
when it expands its subscription, the RID of the subscription is one of them. -/
theorem encodeSubscription_extends (G : Subscription → Prop)
    (Ref : Subscription → String → Option Subscription)
    (hG : ∀ s, G s → ∀ rid ∈ s.refs, ∀ sc, Ref s rid = some sc → G sc) :
    ∀ (n : Nat) (e : encoderJSONFlat) (s : Subscription) (r : encoderJSONFlat × Option String),
      G s → encodeSubscription J K Ref n e s = .ret r →
      Extends G e.path r.1.path ∧ (s.RID ∉ e.path → s.Error = none → s.RID ∈ r.1.path) := by
  intro n
  induction n with
  | zero => intro e s r _ h; simp [encodeSubscription] at h
  | succ n ih =>
    intro e s r hs h
    unfold encodeSubscription at h
    by_cases hc : containsString e.path s.RID = true
    · have hin : s.RID ∈ e.path := by simpa [containsString] using hc
      simp only [hc, if_true] at h
      cases hm : J.MarshalString s.RID with
      | error msg =>
        simp only [hm, Run.ret.injEq] at h
        rw [← h]
        exact ⟨Extends.refl G _, fun hn => absurd hin hn⟩
      | ok dta =>
        simp only [hm, Run.ret.injEq] at h
        rw [← h]
        exact ⟨Extends.refl G _, fun hn => absurd hin hn⟩
    · have hnot : s.rid ∉ e.path := by
        simpa [containsString, Subscription.RID] using hc
      simp only [hc, Bool.false_eq_true, if_false] at h
      cases herr : s.Error with
      | some err =>
        simp only [herr] at h
        cases hm : J.MarshalError (reserr.RESError K err) with
        | error msg =>
          simp only [hm, Run.ret.injEq] at h
          rw [← h]
          exact ⟨Extends.refl G _, fun _ hne => by simp at hne⟩
        | ok dta =>
          simp only [hm, Run.ret.injEq] at h
          rw [← h]
          exact ⟨Extends.refl G _, fun _ hne => by simp at hne⟩
      | none =>
        simp only [herr] at h
        have hpush : Extends G e.path (e.path ++ [s.rid]) :=
          ⟨[s.rid], rfl, List.nodup_singleton _,
            fun r hr => by rw [List.mem_singleton.mp hr]; exact hnot,
            fun r hr => ⟨s, hs, (List.mem_singleton.mp hr).symm⟩⟩
        have hmem : ∀ p1 : List String, Extends G (e.path ++ [s.rid]) p1 → s.RID ∈ p1 := by
          intro p1 hext
          obtain ⟨x, hx, _⟩ := hext
          rw [hx]
          simp [Subscription.RID]
        have henc : ∀ e2 sc r2, G sc → encodeSubscription J K Ref n e2 sc = .ret r2 →
            Extends G e2.path r2.1.path := fun e2 sc r2 hsc h2 => (ih e2 sc r2 hsc h2).1
        cases ht : s.ResourceType with
        | TypeOther =>
          simp only [ht, Run.ret.injEq] at h
          rw [← h]
          exact ⟨hpush, fun _ _ => hmem _ (Extends.refl G _)⟩
        | TypeCollection =>
          simp only [ht] at h
          have hvals : ∀ v ∈ s.CollectionValues,
              v.Type_ = codec.ValueType.ValueTypeResource →
              ∀ sc, Ref s v.RID = some sc → G sc := by
            intro v hv hty sc href
            refine hG s hs v.RID ?_ sc href
            simp only [Subscription.refs, ht, List.mem_map, List.mem_filter, decide_eq_true_eq]
            exact ⟨v, ⟨hv, hty⟩, rfl⟩
          cases hloop : rangeCollection (fun e2 sc => encodeSubscription J K Ref n e2 sc) (Ref s)
              0 s.CollectionValues (encoderJSONFlat.WriteByte ⟨e.b, e.path ++ [s.rid]⟩ '[') with
          | panic => simp [hloop] at h
          | fuel => simp [hloop] at h
          | ret x =>
            obtain ⟨e2, o⟩ := x
            have h2 : Extends G (e.path ++ [s.rid]) e2.path :=
              rangeCollection_extends G _ (Ref s) henc s.CollectionValues hvals 0 _ _ hloop
            rw [hloop] at h
            cases o with
            | none =>
              simp only [Run.ret.injEq] at h
              rw [← h]
              exact ⟨Extends.trans G _ _ _ hpush h2, fun _ _ => hmem _ h2⟩
            | some err =>
              simp only [Run.ret.injEq] at h
              rw [← h]
              exact ⟨Extends.trans G _ _ _ hpush h2, fun _ _ => hmem _ h2⟩
        | TypeModel =>
          simp only [ht] at h
          have hvals : ∀ kv ∈ s.ModelValues,
              kv.2.Type_ = codec.ValueType.ValueTypeResource →
              ∀ sc, Ref s kv.2.RID = some sc → G sc := by
            intro kv hkv hty sc href
            refine hG s hs kv.2.RID ?_ sc href
            simp only [Subscription.refs, ht, List.mem_map, List.mem_filter, decide_eq_true_eq]
            exact ⟨kv, ⟨hkv, hty⟩, rfl⟩
          cases hloop : rangeModel J (fun e2 sc => encodeSubscription J K Ref n e2 sc) (Ref s)
              true s.ModelValues (encoderJSONFlat.WriteByte ⟨e.b, e.path ++ [s.rid]⟩ '\x7b') with
          | panic => simp [hloop] at h
          | fuel => simp [hloop] at h
          | ret x =>
            obtain ⟨e2, o⟩ := x
            have h2 : Extends G (e.path ++ [s.rid]) e2.path :=
              rangeModel_extends J G _ (Ref s) henc s.ModelValues hvals true _ _ hloop
            rw [hloop] at h
            cases o with
            | none =>
              simp only [Run.ret.injEq] at h
              rw [← h]
              exact ⟨Extends.trans G _ _ _ hpush h2, fun _ _ => hmem _ h2⟩
            | some err =>
              simp only [Run.ret.injEq] at h
              rw [← h]
              exact ⟨Extends.trans G _ _ _ hpush h2, fun _ _ => hmem _ h2⟩

/-- C20: on a resource graph (a list of subscriptions closed under the
lookup), a call of `encodeSubscription` that returns leaves the path of the
encoder as the path it found followed by the RIDs it expanded: RIDs of the
graph, pairwise distinct and none of them on the path before, so that the
path stays free of repetitions and no RID is expanded twice; a subscription
it expands is on the path afterwards, and from then on, however the path is
extended, every subscription of that RID is written as the stub; and from
the empty path the number of expanded RIDs is at most the number of distinct
RIDs of the graph. -/
theorem encodeSubscription_expands_once (Ref : Subscription → String → Option Subscription)
    (subs : List Subscription) (hclosed : Closed Ref subs) (n : Nat) (e e1 : encoderJSONFlat)
    (s : Subscription) (o : Option String) (hs : s ∈ subs)
    (h : encodeSubscription J K Ref n e s = .ret (e1, o)) :
    (∃ ext : List String, e1.path = e.path ++ ext ∧ ext.Nodup ∧ (∀ r ∈ ext, r ∉ e.path) ∧
        ∀ r ∈ ext, r ∈ subs.map (fun s1 => s1.rid)) ∧
      (e.path.Nodup → e1.path.Nodup) ∧
      (s.RID ∉ e.path → s.Error = none → s.RID ∈ e1.path) ∧
      (∀ (m : Nat) (e2 : encoderJSONFlat) (s2 : Subscription) (dta : String)
        (Ref2 : Subscription → String → Option Subscription) (ext2 : List String),
        e2.path = e1.path ++ ext2 → s2.RID ∈ e1.path → J.MarshalString s2.RID = .ok dta →
        encodeSubscription J K Ref2 (m + 1) e2 s2 =
          .ret (⟨e2.b ++ "\x7b\"rid\":" ++ dta ++ "\x7d", e2.path⟩, none)) ∧
      (e.path = [] → e1.path.length ≤ (subs.map (fun s1 => s1.rid)).toFinset.card) := by
  have hG : ∀ s0, s0 ∈ subs → ∀ rid ∈ s0.refs, ∀ sc, Ref s0 rid = some sc → sc ∈ subs := by
    intro s0 hs0 rid hrid sc href
    obtain ⟨sc1, hsc1, href1⟩ := hclosed s0 hs0 rid hrid
    rw [href] at href1
    injection href1 with heq
    rw [heq]
    exact hsc1
  obtain ⟨⟨ext, hext, hnd, hdis, hgr⟩, hexp⟩ :=
    encodeSubscription_extends J K (fun s0 => s0 ∈ subs) Ref hG n e s (e1, o) hs h
  have hin : ∀ r ∈ ext, r ∈ subs.map (fun s1 => s1.rid) := by
    intro r hr
    obtain ⟨s0, hs0, hr0⟩ := hgr r hr
    exact List.mem_map.mpr ⟨s0, hs0, hr0⟩
  have hext1 : e1.path = e.path ++ ext := hext
  refine ⟨⟨ext, hext1, hnd, hdis, hin⟩, ?_, hexp, ?_, ?_⟩
  · intro hnd0
    rw [hext1, List.nodup_append]
    exact ⟨hnd0, hnd, fun r hr1 hr2 => hdis r hr2 hr1⟩
  · intro m e2 s2 dta Ref2 ext2 he2 hmem hm
    exact encodeSubscription_stub J K Ref2 m e2 s2 dta
      (by rw [he2]; exact List.mem_append_left _ hmem) hm
  · intro hnil
    rw [hext1, hnil, List.nil_append]
    calc ext.length = ext.toFinset.card := (List.toFinset_card_of_nodup hnd).symm
      _ ≤ (subs.map (fun s1 => s1.rid)).toFinset.card := by
        apply Finset.card_le_card
        intro r hr
        rw [List.mem_toFinset] at hr ⊢
        exact hin r hr

/-- The instance of C20 on the diamond: the path after `Encode` of A holds
each RID once, and D, expanded under B, is the stub under C. -/
theorem encodeSubscription_expands_once_witness :
    Closed (Example.lookup Example.diamond) Example.diamond ∧
      (["A", "B", "D", "C"] : List String).Nodup ∧
      encodeSubscription Example.json Example.consts (Example.lookup Example.diamond) 1
        ⟨"", ["A", "B", "D", "C"]⟩ (Example.model "D" [("x", Example.prim "1")]) =
        .ret (⟨"\x7b\"rid\":\"D\"\x7d", ["A", "B", "D", "C"]⟩, none) :=
  ⟨by decide,
    (encodeSubscription_expands_once Example.json Example.consts
      (Example.lookup Example.diamond) Example.diamond (by decide) 4 ⟨"", []⟩
      ⟨"\x7b\"b\":\x7b\"d\":\x7b\"x\":1\x7d\x7d,\"c\":\x7b\"d\":\x7b\"rid\":\"D\"\x7d\x7d\x7d",
        ["A", "B", "D", "C"]⟩
      (Example.model "A" [("b", Example.ref "B"), ("c", Example.ref "C")]) none (by decide)
      rfl).2.1 List.nodup_nil,
    (encodeSubscription_expands_once Example.json Example.consts
      (Example.lookup Example.diamond) Example.diamond (by decide) 4 ⟨"", []⟩
      ⟨"\x7b\"b\":\x7b\"d\":\x7b\"x\":1\x7d\x7d,\"c\":\x7b\"d\":\x7b\"rid\":\"D\"\x7d\x7d\x7d",
        ["A", "B", "D", "C"]⟩
      (Example.model "A" [("b", Example.ref "B"), ("c", Example.ref "C")]) none (by decide)
      rfl).2.2.2.1 0 ⟨"", ["A", "B", "D", "C"]⟩ (Example.model "D" [("x", Example.prim "1")])
      "\"D\"" (Example.lookup Example.diamond) [] rfl (by decide) rfl⟩

end Path

/-! ## Theorems: the cycle of two models -/

section Cycle

open encoderJSONFlat

variable (J : Json) (K : reserr.Consts)

/-- The fields of two lists of entries, one after the other. -/
theorem fields_append (flat : List String → Subscription → Option (String × List String))
    (Ref : String → Option Subscription) (xs ys : List (String × codec.Value)) :
    ∀ (p p1 p2 : List String) (f1 f2 : List String),
      Spec.fields J flat Ref xs p = some (f1, p1) →
      Spec.fields J flat Ref ys p1 = some (f2, p2) →
      Spec.fields J flat Ref (xs ++ ys) p = some (f1 ++ f2, p2) := by
  induction xs with
  | nil =>
    intro p p1 p2 f1 f2 h1 h2
    simp only [Spec.fields, Option.some.injEq, Prod.mk.injEq] at h1
    obtain ⟨hf, hp⟩ := h1
    subst hf hp
    simpa using h2
  | cons kv xs ih =>
    obtain ⟨k, v⟩ := kv
    intro p p1 p2 f1 f2 h1 h2
    rw [List.cons_append]
    unfold Spec.fields at h1 ⊢
    cases hk : J.MarshalString k with
    | error msg => simp [hk] at h1
    | ok dta =>
      simp only [hk] at h1 ⊢
      by_cases hv : v.Type_ = codec.ValueType.ValueTypeResource
      · simp only [hv, if_true] at h1 ⊢
        cases href : Ref v.RID with
        | none => simp [href] at h1
        | some sc =>
          simp only [href] at h1 ⊢
          cases hflat : flat p sc with
          | none => simp [hflat] at h1
          | some x =>
            obtain ⟨d, p0⟩ := x
            simp only [hflat] at h1 ⊢
            cases hrest : Spec.fields J flat Ref xs p0 with
            | none => simp [hrest] at h1
            | some y =>
              obtain ⟨fs, p3⟩ := y
              simp only [hrest, Option.some.injEq, Prod.mk.injEq] at h1
              obtain ⟨hf, hp⟩ := h1
              subst hf hp
              rw [ih p0 p3 p2 fs f2 hrest h2]
              rfl
      · simp only [hv, if_false] at h1 ⊢
        cases hrest : Spec.fields J flat Ref xs p with
        | none => simp [hrest] at h1
        | some y =>
          obtain ⟨fs, p3⟩ := y
          simp only [hrest, Option.some.injEq, Prod.mk.injEq] at h1
          obtain ⟨hf, hp⟩ := h1
          subst hf hp
          rw [ih p p3 p2 fs f2 hrest h2]
          rfl

/-- The fields of entries none of which is a reference: the key, a colon and
the raw bytes of each, and the path as it was. -/
theorem fields_prims (flat : List String → Subscription → Option (String × List String))
    (Ref : String → Option Subscription) (q : String → String)
    (xs : List (String × codec.Value)) (p : List String)
    (h : ∀ kv ∈ xs, kv.2.Type_ ≠ codec.ValueType.ValueTypeResource ∧
      J.MarshalString kv.1 = .ok (q kv.1)) :
    Spec.fields J flat Ref xs p =
      some (xs.map (fun kv => q kv.1 ++ ":" ++ kv.2.RawMessage), p) := by
  induction xs with
  | nil => rfl
  | cons kv xs ih =>
    obtain ⟨k, v⟩ := kv
    have hkv := h (k, v) (List.mem_cons_self _ _)
    have hrest := ih (fun kv1 h1 => h kv1 (List.mem_cons_of_mem _ h1))
    unfold Spec.fields
    simp only [hkv.2, hkv.1, if_false, hrest, List.map_cons]

/-- The field of a reference, followed by further fields. -/
theorem fields_cons_ref (flat : List String → Subscription → Option (String × List String))
    (Ref : String → Option Subscription) (k dta d : String) (v : codec.Value)
    (sc : Subscription) (xs : List (String × codec.Value)) (p p1 p2 : List String)
    (fs : List String) (hk : J.MarshalString k = .ok dta)
    (hv : v.Type_ = codec.ValueType.ValueTypeResource) (href : Ref v.RID = some sc)
    (hflat : flat p sc = some (d, p1)) (hrest : Spec.fields J flat Ref xs p1 = some (fs, p2)) :
    Spec.fields J flat Ref ((k, v) :: xs) p = some ((dta ++ ":" ++ d) :: fs, p2) := by
  unfold Spec.fields
  simp only [hk, hv, if_true, href, hflat, hrest]

/-- A flattening only extends the path. -/
theorem flatten_subset (Ref : Subscription → String → Option Subscription) (n : Nat)
    (p p1 : List String) (sc : Subscription) (d : String)
    (h : Spec.flatten J K Ref n p sc = some (d, p1)) : p ⊆ p1 := by
  unfold Spec.flatten at h
  cases hr : encodeSubscription J K Ref n ⟨"", p⟩ sc with
  | panic => simp [hr] at h
  | fuel => simp [hr] at h
  | ret x =>
    obtain ⟨e1, o⟩ := x
    cases o with
    | some err => simp [hr] at h
    | none =>
      simp only [hr, Option.some.injEq, Prod.mk.injEq] at h
      obtain ⟨ext, hext, _⟩ := (encodeSubscription_extends J K (fun _ => True) Ref
        (fun _ _ _ _ _ _ => trivial) n ⟨"", p⟩ sc (e1, none) trivial hr).1
      rw [← h.2]
      intro r hr1
      have : e1.path = p ++ ext := hext
      rw [this]
      exact List.mem_append_left _ hr1

/-- The rendering of fields only extends the path. -/
theorem fields_subset (Ref : Subscription → String → Option Subscription) (n : Nat)
    (Ref1 : String → Option Subscription) (xs : List (String × codec.Value)) :
    ∀ (p p1 : List String) (fs : List String),
      Spec.fields J (Spec.flatten J K Ref n) Ref1 xs p = some (fs, p1) → p ⊆ p1 := by
  induction xs with
  | nil =>
    intro p p1 fs h
    simp only [Spec.fields, Option.some.injEq, Prod.mk.injEq] at h
    rw [← h.2]
    exact List.Subset.refl _
  | cons kv xs ih =>
    obtain ⟨k, v⟩ := kv
    intro p p1 fs h
    unfold Spec.fields at h
    cases hk : J.MarshalString k with
    | error msg => simp [hk] at h
    | ok dta =>
      simp only [hk] at h
      by_cases hv : v.Type_ = codec.ValueType.ValueTypeResource
      · simp only [hv, if_true] at h
        cases href : Ref1 v.RID with
        | none => simp [href] at h
        | some sc =>
          simp only [href] at h
          cases hflat : Spec.flatten J K Ref n p sc with
          | none => simp [hflat] at h
          | some x =>
            obtain ⟨d, p0⟩ := x
            simp only [hflat] at h
            cases hrest : Spec.fields J (Spec.flatten J K Ref n) Ref1 xs p0 with
            | none => simp [hrest] at h
            | some y =>
              obtain ⟨fs1, p3⟩ := y
              simp only [hrest, Option.some.injEq, Prod.mk.injEq] at h
              rw [← h.2]
              exact (flatten_subset J K Ref n p p0 sc d hflat).trans (ih p0 p3 fs1 hrest)
      · simp only [hv, if_false] at h
        cases hrest : Spec.fields J (Spec.flatten J K Ref n) Ref1 xs p with
        | none => simp [hrest] at h
        | some y =>
          obtain ⟨fs1, p3⟩ := y
          simp only [hrest, Option.some.injEq, Prod.mk.injEq] at h
          rw [← h.2]
          exact ih p p3 fs1 hrest

/-- A model without error whose RID is not on the path is written as the
object of its fields, as the specification renders them. -/
theorem encodeSubscription_model_fields (Ref : Subscription → String → Option Subscription)
    (n : Nat) (e : encoderJSONFlat) (s : Subscription) (fs : List String) (p : List String)
    (hpath : s.RID ∉ e.path) (herr : s.Error = none) (ht : s.ResourceType = .TypeModel)
    (hf : Spec.fields J (Spec.flatten J K Ref n) (Ref s) s.ModelValues (e.path ++ [s.rid]) =
      some (fs, p)) :
    encodeSubscription J K Ref (n + 1) e s =
      .ret (⟨e.b ++ "\x7b" ++ Spec.commaSep fs ++ "\x7d", p⟩, none) := by
  have hloop := rangeModel_fields J
    (fun e2 sc => encodeSubscription J K Ref n e2 sc) (Spec.flatten J K Ref n) (Ref s)
    (fun b p0 p1 sc d h => flatten_spec J K Ref n b p0 p1 sc d h) s.ModelValues
    (e.b ++ "\x7b") (e.path ++ [s.rid]) p fs hf
  have hnot : containsString e.path s.RID = false := by
    simpa [containsString] using hpath
  unfold encodeSubscription
  simp only [hnot, Bool.false_eq_true, if_false, herr, ht, encoderJSONFlat.WriteByte]
  have h0 := hloop.2.2
  simp only [String.append_assoc] at h0 ⊢
  rw [show String.singleton '\x7b' = "\x7b" from rfl, h0]
  simp only [String.append_assoc]
  rfl

/-- C3: a subscription whose RID is on the path of the encoder appends exactly
the bytes of the stub object with the JSON string of the RID, leaves the path
unchanged and returns no error; it does so with a single unit of fuel (no
nested call) and for every lookup and every subscription of that RID (no
lookup).  In particular, for models A and B where a field of A refers to B
and the only reference of B points back to A, whatever the other fields of A
and of B (those of A rendered as `Spec.fields` gives them, B not yet
expanded when its field is reached; those of B no references), `Encode` of A
is the object of all fields of A in which the field of B is the object of
all fields of B in which the back-reference is exactly the stub of A. -/
theorem encodeSubscription_cycle_safety (Ref : Subscription → String → Option Subscription)
    (n : Nat) :
    (∀ (e : encoderJSONFlat) (s : Subscription) (dta : String), s.RID ∈ e.path →
        J.MarshalString s.RID = .ok dta →
        ∀ (Ref2 : Subscription → String → Option Subscription) (s2 : Subscription),
          s2.RID = s.RID →
          encodeSubscription J K Ref2 1 e s2 =
              .ret (⟨e.b ++ "\x7b\"rid\":" ++ dta ++ "\x7d", e.path⟩, none) ∧
            encodeSubscription J K Ref (n + 1) e s =
              .ret (⟨e.b ++ "\x7b\"rid\":" ++ dta ++ "\x7d", e.path⟩, none)) ∧
      ∀ (A B A2 : Subscription) (pre post preB postB : List (String × codec.Value))
        (ka kb va vb qa qka qkb : String) (q : String → String) (fsPre fsPost : List String)
        (p1 p2 : List String),
        A.Error = none → A.ResourceType = .TypeModel →
        A.ModelValues = pre ++ (kb, ⟨vb, .ValueTypeResource, B.rid⟩) :: post →
        B.Error = none → B.ResourceType = .TypeModel →
        B.ModelValues = preB ++ (ka, ⟨va, .ValueTypeResource, A.rid⟩) :: postB →
        (∀ kv ∈ preB ++ postB, kv.2.Type_ ≠ codec.ValueType.ValueTypeResource ∧
          J.MarshalString kv.1 = .ok (q kv.1)) →
        Ref A B.rid = some B → Ref B A.rid = some A2 → A2.rid = A.rid →
        J.MarshalString A.rid = .ok qa → J.MarshalString ka = .ok qka →
        J.MarshalString kb = .ok qkb →
        Spec.fields J (Spec.flatten J K Ref (n + 2)) (Ref A) pre [A.rid] = some (fsPre, p1) →
        B.rid ∉ p1 →
        Spec.fields J (Spec.flatten J K Ref (n + 2)) (Ref A) post (p1 ++ [B.rid]) =
          some (fsPost, p2) →
        Encode J K Ref (n + 3) ⟨"", []⟩ A =
          .ret ("\x7b" ++ Spec.commaSep (fsPre ++ (qkb ++ ":" ++ ("\x7b" ++ Spec.commaSep
            (preB.map (fun kv => q kv.1 ++ ":" ++ kv.2.RawMessage) ++
              (qka ++ ":" ++ ("\x7b\"rid\":" ++ qa ++ "\x7d")) ::
              postB.map (fun kv => q kv.1 ++ ":" ++ kv.2.RawMessage)) ++ "\x7d")) :: fsPost) ++
            "\x7d", none) := by
  refine ⟨?_, ?_⟩
  · intro e s dta hpath hm Ref2 s2 hs2
    exact ⟨encodeSubscription_stub J K Ref2 0 e s2 dta (hs2 ▸ hpath) (hs2 ▸ hm),
      encodeSubscription_stub J K Ref n e s dta hpath hm⟩
  · intro A B A2 pre post preB postB ka kb va vb qa qka qkb q fsPre fsPost p1 p2 hAe hAt hAv
      hBe hBt hBv hprims hRB hRA hA2 hqa hqka hqkb hpre hBp hpost
    have hAin : A.rid ∈ p1 :=
      fields_subset J K Ref (n + 2) (Ref A) pre [A.rid] p1 fsPre hpre (List.mem_singleton_self _)
    -- the back-reference of B is the stub of A
    have hstub : Spec.flatten J K Ref (n + 1) (p1 ++ [B.rid]) A2 =
        some ("\x7b\"rid\":" ++ qa ++ "\x7d", p1 ++ [B.rid]) := by
      have h := encodeSubscription_stub J K Ref n ⟨"", p1 ++ [B.rid]⟩ A2 qa
        (by simp [Subscription.RID, hA2, hAin]) (by simpa [Subscription.RID, hA2] using hqa)
      simp only [Spec.flatten, h, String.append_assoc]
      simp
    -- the fields of B
    have hBfields : Spec.fields J (Spec.flatten J K Ref (n + 1)) (Ref B) B.ModelValues
        (p1 ++ [B.rid]) =
        some (preB.map (fun kv => q kv.1 ++ ":" ++ kv.2.RawMessage) ++
          (qka ++ ":" ++ ("\x7b\"rid\":" ++ qa ++ "\x7d")) ::
          postB.map (fun kv => q kv.1 ++ ":" ++ kv.2.RawMessage), p1 ++ [B.rid]) := by
      rw [hBv]
      refine fields_append J _ _ preB _ _ _ _ _ _
        (fields_prims J _ _ q preB _ (fun kv h => hprims kv (List.mem_append_left _ h))) ?_
      exact fields_cons_ref J _ _ ka qka _ _ A2 postB _ _ _ _ hqka rfl hRA hstub
        (fields_prims J _ _ q postB _ (fun kv h => hprims kv (List.mem_append_right _ h)))
    -- the object of B, flattened from the path on which its field is reached
    have hBenc := encodeSubscription_model_fields J K Ref (n + 1) ⟨"", p1⟩ B _ _
      (by simpa [Subscription.RID] using hBp) hBe hBt hBfields
    have hBflat : Spec.flatten J K Ref (n + 2) p1 B =
        some ("\x7b" ++ Spec.commaSep
          (preB.map (fun kv => q kv.1 ++ ":" ++ kv.2.RawMessage) ++
            (qka ++ ":" ++ ("\x7b\"rid\":" ++ qa ++ "\x7d")) ::
            postB.map (fun kv => q kv.1 ++ ":" ++ kv.2.RawMessage)) ++ "\x7d",
          p1 ++ [B.rid]) := by
      simp only [Spec.flatten, hBenc, String.append_assoc]
      simp
    -- the fields of A
    have hAfields : Spec.fields J (Spec.flatten J K Ref (n + 2)) (Ref A) A.ModelValues
        ([] ++ [A.rid]) = some (fsPre ++ (qkb ++ ":" ++ ("\x7b" ++ Spec.commaSep
          (preB.map (fun kv => q kv.1 ++ ":" ++ kv.2.RawMessage) ++
            (qka ++ ":" ++ ("\x7b\"rid\":" ++ qa ++ "\x7d")) ::
            postB.map (fun kv => q kv.1 ++ ":" ++ kv.2.RawMessage)) ++ "\x7d")) :: fsPost,
          p2) := by
      rw [hAv]
      exact fields_append J _ _ pre _ _ _ _ _ _ hpre
        (fields_cons_ref J _ _ kb qkb _ _ B post _ _ _ _ hqkb rfl hRB hBflat hpost)
    have hAenc := encodeSubscription_model_fields J K Ref (n + 2) ⟨"", []⟩ A _ _
      (by simp) hAe hAt hAfields
    simp only [Encode, hAenc, String.append_assoc]
    simp

/-- The instance of C3 on the cycle of A and B with further fields: all
fields of both are rendered, the back-reference of B is the stub of A; and a
node on the path is written as its stub. -/
theorem encodeSubscription_cycle_safety_witness :
    Encode Example.json Example.consts (Example.lookup Example.cycleFields) 3 ⟨"", []⟩
        (Example.model "A"
          [("name", Example.prim "\"a\""), ("b", Example.ref "B"), ("n", Example.prim "1")]) =
        .ret ("\x7b\"name\":\"a\",\"b\":\x7b\"x\":2,\"a\":\x7b\"rid\":\"A\"\x7d,\"ok\":true\x7d,\"n\":1\x7d",
          none) ∧
      encodeSubscription Example.json Example.consts (Example.lookup Example.cycle) 1
        ⟨"[", ["A", "B"]⟩ (Example.model "A" [("b", Example.ref "B")]) =
        .ret (⟨"[\x7b\"rid\":\"A\"\x7d", ["A", "B"]⟩, none) :=
  ⟨(encodeSubscription_cycle_safety Example.json Example.consts
      (Example.lookup Example.cycleFields) 0).2
      (Example.model "A"
        [("name", Example.prim "\"a\""), ("b", Example.ref "B"), ("n", Example.prim "1")])
      (Example.model "B"
        [("x", Example.prim "2"), ("a", Example.ref "A"), ("ok", Example.prim "true")])
      (Example.model "A"
        [("name", Example.prim "\"a\""), ("b", Example.ref "B"), ("n", Example.prim "1")])
      [("name", Example.prim "\"a\"")] [("n", Example.prim "1")]
      [("x", Example.prim "2")] [("ok", Example.prim "true")]
      "a" "b" "" "" "\"A\"" "\"a\"" "\"b\"" Example.quote
      ["\"name\":\"a\""] ["\"n\":1"] ["A"] ["A", "B"]
      rfl rfl rfl rfl rfl rfl
      (by
        intro kv h
        simp only [List.cons_append, List.nil_append, List.mem_cons, List.mem_singleton,
          List.not_mem_nil, or_false] at h
        rcases h with rfl | rfl <;> exact ⟨by decide, rfl⟩)
      rfl rfl rfl rfl rfl rfl rfl (by decide) rfl,
    ((encodeSubscription_cycle_safety Example.json Example.consts
      (Example.lookup Example.cycle) 0).1 ⟨"[", ["A", "B"]⟩
      (Example.model "A" [("b", Example.ref "B")]) "\"A\"" (by decide) rfl
      (Example.lookup Example.cycle) (Example.model "A" [("b", Example.ref "B")]) rfl).1⟩

end Cycle

end Resgate
